import Mathlib

/-!
# Chopper layout: bin-count search and build driver

A shallow embedding of `chopper::layout::determine_best_number_of_technical_bins`,
`chopper::layout::execute` (src/src/chopper_layout.cpp) and `chopper_build`
(src/include/chopper/build/chopper_build.hpp), followed by the properties proved of them.

Conventions of the embedding:
* `size_t` values are natural numbers; where the source can wrap around (the doubling
  `t_max *= 2`, and the rounded count stored into `config.tmax` at line 102) the value is taken
  modulo `2^64`.
* `std::set<size_t>` is a strictly ascending list, `std::set::insert` is `set_insert`.
* A `double` is a rational number, `+infinity`, `-infinity` or NaN (type `double`), compared as
  IEEE 754 compares them.
* `config.tmax` is taken to be a `size_t`, like every value the embedded functions assign to it.
* `std::stringstream *` is an address into a heap of buffers (`List String`).
* The binning engine, the statistics class and the argument parser are not part of the
  embedded files; they are parameters of the embedding.
-/

namespace chopper

/-! ## Candidate set -/

/-- Modelled from the spec: `chopper::next_multiple_of_64` is declared outside the embedded
files. The spec describes its result as the smallest multiple of 64 at or above the given value
("rounded up to the nearest multiple of 64", 100 becomes 128). -/
def next_multiple_of_64 (value : Nat) : Nat :=
  (value + 63) / 64 * 64

/-- The expression `std::ceil(std::sqrt(user_bin_count))` of line 32, converted back to `size_t`.
The double-precision square root is taken as the exact one (the two agree on every count below
`2^52`), so the value is the least natural number whose square reaches `n`. -/
def ceil_sqrt (n : Nat) : Nat :=
  if Nat.sqrt n * Nat.sqrt n = n then Nat.sqrt n else Nat.sqrt n + 1

/-- Insertion into a `std::set<size_t>`, kept as a strictly ascending list: an element that is
already present is not inserted a second time. -/
def set_insert (x : Nat) : List Nat → List Nat
  | [] => [x]
  | y :: ys =>
    if x < y then x :: y :: ys
    else if x = y then y :: ys
    else y :: set_insert x ys

/-- The loop `for (size_t t_max = 64; t_max <= config.tmax; t_max *= 2) result.insert(t_max);`
(lines 26-27), started at `t_max` with `result` already built. The doubling is a `size_t`
multiplication; `fuel` bounds the number of iterations and `none` means it was used up. -/
def pow2_loop (tmax : Nat) : Nat → Nat → List Nat → Option (List Nat)
  | 0, t_max, result => if t_max ≤ tmax then none else some result
  | fuel + 1, t_max, result =>
    if t_max ≤ tmax then pow2_loop tmax fuel ((t_max * 2) % 2 ^ 64) (set_insert t_max result)
    else some result

/-- The lambda that initialises `potential_t_max` (lines 22-36): the powers of two from 64 up to
`config.tmax`, then the multiple of 64 next to the square root of the number of user bins. -/
def potential_t_max (fuel tmax user_bin_count : Nat) : Option (List Nat) :=
  (pow2_loop tmax fuel 64 []).map
    (fun result => set_insert (next_multiple_of_64 (ceil_sqrt user_bin_count)) result)

/-- The spec's description of the extra candidate: `m` is the smallest multiple of 64 that is at
or above the square root of `n` (for natural numbers, `sqrt n ≤ m` is `n ≤ m * m`). -/
def smallest_multiple_of_64_above_sqrt (n m : Nat) : Prop :=
  64 ∣ m ∧ n ≤ m * m ∧ ∀ k, 64 ∣ k → n ≤ k * k → m ≤ k

/-! ## Doubles -/

/-- The values of a C++ `double`: the finite ones (each is a rational number; the two zeros
compare equal and are one value here), the two infinities and NaN. -/
inductive double where
  | finite (value : ℚ)
  | infinity
  | minus_infinity
  | nan

/-- The comparison `a < b` of two doubles: false whenever one of them is NaN. -/
def double_lt : double → double → Bool
  | double.finite a, double.finite b => decide (a < b)
  | double.finite _, double.infinity => true
  | double.minus_infinity, double.finite _ => true
  | double.minus_infinity, double.infinity => true
  | _, _ => false

/-- The comparison `a <= b` of two doubles: false whenever one of them is NaN. -/
def double_le : double → double → Bool
  | double.finite a, double.finite b => decide (a ≤ b)
  | double.finite _, double.infinity => true
  | double.minus_infinity, double.finite _ => true
  | double.minus_infinity, double.infinity => true
  | double.minus_infinity, double.minus_infinity => true
  | double.infinity, double.infinity => true
  | _, _ => false

/-- Whether a double is NaN. -/
def double.is_nan : double → Bool
  | double.nan => true
  | _ => false

/-- Whether a double is finite. -/
def double.is_finite : double → Bool
  | double.finite _ => true
  | _ => false

/-! ## Configuration, data store and collaborators of the layout step -/

/-- The fields of `chopper::configuration` that the embedded functions read or write. -/
structure configuration where
  tmax : Nat
  determine_best_tmax : Bool
  force_all_binnings : Bool
  output_verbose_statistics : Bool
  rearrange_user_bins : Bool
  estimate_union : Bool
  num_hash_functions : Nat
  false_positive_rate : ℚ
  output_filename : String

/-- The fields of `chopper::data_store` that the embedded functions read or write.
`output_buffer` and `header_buffer` are the two `std::stringstream *` members, as addresses into
the buffer memory. `stats` is the statistics object that the pointer `data.stats` refers to.
`Prev` is the type `previous_level`, `Stats` the type `hibf_statistics`. -/
structure data_store (Prev Stats : Type) where
  output_buffer : Nat
  header_buffer : Nat
  previous : Prev
  stats : Stats
  kmer_counts : List Nat
  fp_correction : List ℚ
  filenames : List String

/-- What one call of `hierarchical_binning{data, config}.execute()` produces: the text it streams
into `*data.output_buffer` and `*data.header_buffer`, the state it leaves in `data.previous` and
in the statistics object behind `data.stats`, and its return value. -/
structure binning_run (Prev Stats : Type) where
  output : String
  header : String
  previous : Prev
  stats : Stats
  max_hibf_id : Nat

/-- The collaborators of the layout step that are declared outside the embedded files.
The binning engine reads the configuration, the user-bin cardinalities, the FP correction table,
the previous-level state and the statistics object it is handed (contract of the spec:
`execute(user_bins, t_max, fp_table)`, "a pure function of its inputs"). -/
structure layout_engine (Prev Stats : Type) where
  /-- The value `chopper::layout::previous_level{}`. -/
  previous_level : Prev
  /-- The constructor `hibf_statistics{config, data.fp_correction, data.kmer_counts}`. -/
  hibf_statistics : configuration → List ℚ → List Nat → Stats
  /-- The body of `hierarchical_binning::execute`. -/
  binning : configuration → List Nat → List ℚ → Prev → Stats → binning_run Prev Stats
  /-- The member `hibf_statistics::finalize`. -/
  finalize : Stats → Stats
  /-- The member `hibf_statistics::expected_HIBF_query_cost`, a double. -/
  expected_HIBF_query_cost : Stats → double
  /-- The text of `hibf_statistics::print_header_to(stream, verbose)`. -/
  print_header_to : Bool → String
  /-- The member `print_summary_to(t_max_64_memory, stream, verbose)`: the new value of the
  reference argument `t_max_64_memory` and the text streamed. -/
  print_summary_to : Nat → Stats → Bool → Nat × String
  /-- The default of the `verbose` argument of the two printing functions. -/
  verbose_default : Bool
  /-- The member `data_store::compute_fp_correction(fpr, num_hash_functions, tmax)`: the table it
  stores in `data.fp_correction`. -/
  compute_fp_correction : ℚ → Nat → Nat → List ℚ
  /-- The text `write_layout_header_to(config, max_hibf_id, header, stream)` streams. -/
  write_layout_header_to : configuration → Nat → String → String

/-- The content of the buffer at address `a` (the `std::stringstream` that a pointer refers to). -/
def read_buffer (memory : List String) (a : Nat) : String :=
  memory.getD a ""

/-- Replace the content of the buffer at address `a`. -/
def write_buffer (memory : List String) (a : Nat) (text : String) : List String :=
  memory.set a text

/-- The call `hierarchical_binning{data, config}.execute()` on the current data store: the engine
appends its layout text to the stream behind `data.output_buffer` and its header text to the one
behind `data.header_buffer`, and updates `data.previous` and the statistics behind `data.stats`.
The result is the memory, the data store, the value returned and, as a record of the call, the
`tmax` of the configuration the engine was handed. -/
def hierarchical_binning_execute {Prev Stats : Type} (E : layout_engine Prev Stats)
    (data : data_store Prev Stats) (config : configuration) (memory : List String) :
    List String × data_store Prev Stats × Nat × Nat :=
  let r := E.binning config data.kmer_counts data.fp_correction data.previous data.stats
  let memory1 := write_buffer memory data.output_buffer
    (read_buffer memory data.output_buffer ++ r.output)
  let memory2 := write_buffer memory1 data.header_buffer
    (read_buffer memory1 data.header_buffer ++ r.header)
  (memory2, { data with previous := r.previous, stats := r.stats }, r.max_hibf_id, config.tmax)

/-! ## The bin-count search -/

/-- One thing streamed into the `.stats` file. A summary row carries the candidate `t_max` of the
loop iteration that printed it. -/
inductive stats_line where
  | parameters (number_of_user_bins num_hash_functions : Nat) (false_positive_rate : ℚ)
  | header (text : String)
  | summary (t_max : Nat) (text : String)
  | best_t_max (t_max : Nat)

/-- The variables of `determine_best_number_of_technical_bins` that live across loop iterations,
with the buffer memory and the `.stats` stream. `evaluated` is a ghost field: the `tmax` values
with which the binning engine has been called, in call order. -/
structure search_state (Prev Stats : Type) where
  memory : List String
  data : data_store Prev Stats
  config : configuration
  file_out : List stats_line
  best_expected_HIBF_query_cost : double
  best_t_max : Nat
  max_hibf_id : Nat
  t_max_64_memory : Nat
  evaluated : List Nat

/-- The body of the loop over `potential_t_max` (lines 56-85) for the candidate `t_max`. The two
temporary streams are allocated at the end of the memory and destroyed when the iteration ends.
The boolean is `true` when the iteration leaves the loop through `break`. -/
def search_body {Prev Stats : Type} (E : layout_engine Prev Stats)
    (output_buffer_original header_buffer_original : Nat)
    (s : search_state Prev Stats) (t_max : Nat) : search_state Prev Stats × Bool :=
  let output_buffer_tmp := s.memory.length
  let header_buffer_tmp := s.memory.length + 1
  let memory0 := s.memory ++ ["", ""]
  let config1 : configuration := { s.config with tmax := t_max }
  let global_stats0 := E.hibf_statistics config1 s.data.fp_correction s.data.kmer_counts
  let data1 : data_store Prev Stats :=
    { s.data with
      output_buffer := output_buffer_tmp
      header_buffer := header_buffer_tmp
      previous := E.previous_level
      stats := global_stats0 }
  let r := hierarchical_binning_execute E data1 config1 memory0
  let memory1 := r.1
  let data2 := r.2.1
  let max_hibf_id_tmp := r.2.2.1
  let global_stats := E.finalize data2.stats
  let data3 : data_store Prev Stats := { data2 with stats := global_stats }
  let printed := E.print_summary_to s.t_max_64_memory global_stats config1.output_verbose_statistics
  let file_out1 := s.file_out ++ [stats_line.summary t_max printed.2]
  let cost := E.expected_HIBF_query_cost global_stats
  if double_lt cost s.best_expected_HIBF_query_cost then
    let memory2 := write_buffer memory1 output_buffer_original (read_buffer memory1 output_buffer_tmp)
    let memory3 := write_buffer memory2 output_buffer_tmp ""
    let memory4 := write_buffer memory3 header_buffer_original (read_buffer memory3 header_buffer_tmp)
    let memory5 := write_buffer memory4 header_buffer_tmp ""
    ({ memory := memory5.take s.memory.length
       data := data3
       config := config1
       file_out := file_out1
       best_expected_HIBF_query_cost := cost
       best_t_max := t_max
       max_hibf_id := max_hibf_id_tmp
       t_max_64_memory := printed.1
       evaluated := s.evaluated ++ [r.2.2.2] }, false)
  else
    ({ memory := memory1.take s.memory.length
       data := data3
       config := config1
       file_out := file_out1
       best_expected_HIBF_query_cost := s.best_expected_HIBF_query_cost
       best_t_max := s.best_t_max
       max_hibf_id := s.max_hibf_id
       t_max_64_memory := printed.1
       evaluated := s.evaluated ++ [r.2.2.2] }, !config1.force_all_binnings)

/-- The loop `for (size_t const t_max : potential_t_max)` (lines 54-86) over the candidates in
ascending order. -/
def search_loop {Prev Stats : Type} (E : layout_engine Prev Stats)
    (output_buffer_original header_buffer_original : Nat) :
    search_state Prev Stats → List Nat → search_state Prev Stats
  | s, [] => s
  | s, t_max :: rest =>
    let r := search_body E output_buffer_original header_buffer_original s t_max
    if r.2 then r.1 else search_loop E output_buffer_original header_buffer_original r.1 rest

/-- The state in which the loop is entered (lines 41-52). -/
def search_init {Prev Stats : Type} (E : layout_engine Prev Stats)
    (data : data_store Prev Stats) (config : configuration) (memory : List String) :
    search_state Prev Stats :=
  { memory := memory
    data := data
    config := config
    file_out :=
      [stats_line.parameters data.filenames.length config.num_hash_functions
        config.false_positive_rate,
       stats_line.header (E.print_header_to config.output_verbose_statistics)]
    best_expected_HIBF_query_cost := double.infinity
    best_t_max := 0
    max_hibf_id := 0
    t_max_64_memory := 0
    evaluated := [] }

/-- The statements after the loop (lines 88-91). -/
def search_finish {Prev Stats : Type} (output_buffer_original header_buffer_original : Nat)
    (s : search_state Prev Stats) : search_state Prev Stats :=
  { s with
    file_out := s.file_out ++ [stats_line.best_t_max s.best_t_max]
    config := { s.config with tmax := s.best_t_max }
    data := { s.data with
              output_buffer := output_buffer_original
              header_buffer := header_buffer_original } }

/-- The function `determine_best_number_of_technical_bins(data, config)`. The result is the state
on return; the returned value is its field `max_hibf_id`. `none` means that the loop building the
candidate set did not end within `fuel` iterations. -/
def determine_best_number_of_technical_bins {Prev Stats : Type} (E : layout_engine Prev Stats)
    (fuel : Nat) (data : data_store Prev Stats) (config : configuration) (memory : List String) :
    Option (search_state Prev Stats) :=
  (potential_t_max fuel config.tmax data.kmer_counts.length).map
    (fun candidates =>
      search_finish data.output_buffer data.header_buffer
        (search_loop E data.output_buffer data.header_buffer
          (search_init E data config memory) candidates))

/-- The binning run that the loop body performs for the candidate `t_max`: the engine is handed
the configuration with `tmax` overwritten, the reset previous level and a fresh statistics
object. -/
def candidate_run {Prev Stats : Type} (E : layout_engine Prev Stats)
    (config : configuration) (data : data_store Prev Stats) (t_max : Nat) :
    binning_run Prev Stats :=
  E.binning { config with tmax := t_max } data.kmer_counts data.fp_correction E.previous_level
    (E.hibf_statistics { config with tmax := t_max } data.fp_correction data.kmer_counts)

/-- The value `global_stats.expected_HIBF_query_cost` that the loop body compares for the
candidate `t_max`. -/
def candidate_cost {Prev Stats : Type} (E : layout_engine Prev Stats)
    (config : configuration) (data : data_store Prev Stats) (t_max : Nat) : double :=
  E.expected_HIBF_query_cost (E.finalize (candidate_run E config data t_max).stats)

/-- The best cost seen so far when `best` is the best candidate so far: `+infinity` before the
first improvement. -/
def best_cost (cost : Nat → double) : Option Nat → double
  | none => double.infinity
  | some best => cost best

/-- The selection made by the loop, with everything but the costs left out: from the best
candidate so far (`none` before the first improvement) and the remaining candidates to the final
best candidate and the candidates visited. Used to reason about `search_loop`. -/
def select_walk (cost : Nat → double) (force_all_binnings : Bool) :
    Option Nat → List Nat → Option Nat × List Nat
  | best, [] => (best, [])
  | best, t_max :: rest =>
    if double_lt (cost t_max) (best_cost cost best) then
      ((select_walk cost force_all_binnings (some t_max) rest).1,
        t_max :: (select_walk cost force_all_binnings (some t_max) rest).2)
    else if force_all_binnings then
      ((select_walk cost force_all_binnings best rest).1,
        t_max :: (select_walk cost force_all_binnings best rest).2)
    else (best, [t_max])

/-- The state `s` of the loop works on the same inputs as the call that was entered with `config`
and `data`: the configuration differs at most in `tmax`, and the user-bin cardinalities, the FP
correction table and the file names are the same. -/
def same_inputs {Prev Stats : Type} (config : configuration) (data : data_store Prev Stats)
    (s : search_state Prev Stats) : Prop :=
  (∀ t, ({ s.config with tmax := t } : configuration) = { config with tmax := t }) ∧
  s.data.kmer_counts = data.kmer_counts ∧
  s.data.fp_correction = data.fp_correction ∧
  s.data.filenames = data.filenames

/-- The state `s` of the loop holds the result of the candidate `best`: the best cost is that of
`best`, and `best_t_max`, `max_hibf_id` and the two original buffers come from the binning run of
`best`. When `best` is `none` it holds no result: the variables have their initial values and the
buffers the contents of `memory_on_entry`. -/
def tracks {Prev Stats : Type} (E : layout_engine Prev Stats) (config : configuration)
    (data : data_store Prev Stats) (output_buffer_original header_buffer_original : Nat)
    (memory_on_entry : List String) (s : search_state Prev Stats) (best : Option Nat) : Prop :=
  s.best_expected_HIBF_query_cost = best_cost (candidate_cost E config data) best ∧
  (∀ w, best = some w →
    s.best_t_max = w ∧
    s.max_hibf_id = (candidate_run E config data w).max_hibf_id ∧
    (output_buffer_original < s.memory.length → header_buffer_original < s.memory.length →
      output_buffer_original ≠ header_buffer_original →
      read_buffer s.memory output_buffer_original = (candidate_run E config data w).output ∧
      read_buffer s.memory header_buffer_original = (candidate_run E config data w).header)) ∧
  (best = none →
    s.best_t_max = 0 ∧ s.max_hibf_id = 0 ∧
    ∀ a, a < s.memory.length → read_buffer s.memory a = read_buffer memory_on_entry a)

/-- A run of candidates each of which improves on the best cost seen so far, which is `limit`
before the first of them: the costs fall strictly, starting below `limit`. -/
def strictly_descending (cost : Nat → double) : double → List Nat → Prop
  | _, [] => True
  | limit, t_max :: rest =>
    double_lt (cost t_max) limit = true ∧ strictly_descending cost (cost t_max) rest

/-- The summary rows that the loop prints for the candidates `evaluated`, one for each in this
order: the row of a candidate is what `print_summary_to` makes of the finalized statistics of
its binning run. `t_max_64_memory` is the variable of that name, passed by reference from row to
row. -/
def summary_rows {Prev Stats : Type} (E : layout_engine Prev Stats) (config : configuration)
    (data : data_store Prev Stats) : Nat → List Nat → List stats_line
  | _, [] => []
  | t_max_64_memory, t_max :: rest =>
    stats_line.summary t_max
        (E.print_summary_to t_max_64_memory (E.finalize (candidate_run E config data t_max).stats)
          config.output_verbose_statistics).2
      :: summary_rows E config data
        (E.print_summary_to t_max_64_memory (E.finalize (candidate_run E config data t_max).stats)
          config.output_verbose_statistics).1 rest

/-- The candidate of a summary row of the `.stats` file, `none` for the other lines. -/
def stats_line.candidate : stats_line → Option Nat
  | stats_line.summary t_max _ => some t_max
  | _ => none

/-! ## The layout driver -/

/-- The statements of `execute` before the FP correction is computed (lines 97-106): the value
of `config` after them. The rounded count is a `size_t` stored back into `config.tmax`, so it is
taken modulo `2^64`. -/
def execute_adjust (config : configuration) : configuration :=
  let config1 : configuration :=
    if config.rearrange_user_bins then { config with estimate_union := true } else config
  if config1.tmax % 64 ≠ 0 then
    { config1 with tmax := next_multiple_of_64 config1.tmax % 2 ^ 64 }
  else config1

/-- What a call of `chopper::layout::execute` leaves behind. `engine_tmax` is a ghost field: the
`tmax` values with which the binning engine has been called, as recorded at the calls. -/
structure layout_run (Prev Stats : Type) where
  exit_code : Int
  config : configuration
  data : data_store Prev Stats
  memory : List String
  warned : Bool
  cout : List String
  stats_file : List stats_line
  layout_file : String
  engine_tmax : List Nat

/-- The function `chopper::layout::execute(config, data)`; `none` means that the candidate loop
of the search did not end within `fuel` iterations. -/
def execute {Prev Stats : Type} (E : layout_engine Prev Stats) (fuel : Nat)
    (config : configuration) (data : data_store Prev Stats) (memory : List String) :
    Option (layout_run Prev Stats) :=
  let config1 := execute_adjust config
  let warned := decide (config.tmax % 64 ≠ 0)
  let data1 : data_store Prev Stats :=
    { data with
      fp_correction :=
        E.compute_fp_correction config1.false_positive_rate config1.num_hash_functions
          config1.tmax }
  if config1.determine_best_tmax then
    (determine_best_number_of_technical_bins E fuel data1 config1 memory).map
      (fun s =>
        { exit_code := 0
          config := s.config
          data := s.data
          memory := s.memory
          warned := warned
          cout := []
          stats_file := s.file_out
          layout_file :=
            E.write_layout_header_to s.config s.max_hibf_id
                (read_buffer s.memory s.data.header_buffer)
              ++ read_buffer s.memory s.data.output_buffer
          engine_tmax := s.evaluated })
  else
    let global_stats0 := E.hibf_statistics config1 data1.fp_correction data1.kmer_counts
    let data2 : data_store Prev Stats := { data1 with stats := global_stats0 }
    let r := hierarchical_binning_execute E data2 config1 memory
    let cout : List String :=
      if config1.output_verbose_statistics then
        [E.print_header_to E.verbose_default,
         (E.print_summary_to 0 r.2.1.stats E.verbose_default).2]
      else []
    some
      { exit_code := 0
        config := config1
        data := r.2.1
        memory := r.1
        warned := warned
        cout := cout
        stats_file := []
        layout_file :=
          E.write_layout_header_to config1 r.2.2.1 (read_buffer r.1 r.2.1.header_buffer)
            ++ read_buffer r.1 r.2.1.output_buffer
        engine_tmax := [r.2.2.2] }

/-! ## The build driver -/

/-- The struct `build_config`, filled by the argument parser. -/
structure build_config where
  chopper_pack_filename : String
  k : Nat
  overlap : Nat
  FPR : ℚ
  output_prefix : String
  verbose : Bool

/-- How `parser.parse()` ends: normally, with a `seqan3::argument_parser_error`, or with an
exception of another type. -/
inductive parse_outcome where
  | ok
  | argument_parser_error (what : String)
  | other_exception (what : String)

/-- The surroundings of one call of `chopper_build`: what the argument parser and the file system
answer. An `Except.error` of `is_option_set` is a `seqan3::argument_parser_error` thrown by the
query; an `Except.error` of the other calls is an exception of another type. -/
structure build_environment where
  parse : parse_outcome
  parsed_config : build_config
  is_option_set : Char → Except String Bool
  create_ibfs_from_chopper_pack : build_config → Except String Unit
  parent_path : String → String
  directory_exists : String → Bool
  create_directories : String → Bool
  ofstream_usable : String → Bool
  archive : String → Except String Unit

/-- The observable steps of a call of `chopper_build`. -/
inductive build_event where
  | debug_stream (text : String)
  | create_ibfs
  | create_directories (directory : String)
  | open_file (out_filename : String)
  | archive (out_filename : String)

/-- How a call of `chopper_build` ends: with a return value or with an exception that leaves the
function. -/
inductive build_outcome where
  | returned (code : Int)
  | thrown (what : String)

/-- A call of `chopper_build`: the steps taken and how it ended. -/
structure build_run where
  events : List build_event
  outcome : build_outcome

/-- Opening one output file and archiving into it (lines 80-89 and 92-101). -/
def write_archive (env : build_environment) (out_filename : String) (run : build_run) :
    build_run :=
  let events1 := run.events ++ [build_event.open_file out_filename]
  if !env.ofstream_usable out_filename then
    { events := events1
      outcome := build_outcome.thrown ("Could not open " ++ out_filename ++ " for writing.") }
  else
    match env.archive out_filename with
    | Except.error what => { events := events1, outcome := build_outcome.thrown what }
    | Except.ok _ =>
      { events := events1 ++ [build_event.archive out_filename], outcome := run.outcome }

/-- The statements of `chopper_build` after the `try` block (lines 70-103). -/
def chopper_build_tail (env : build_environment) (config : build_config)
    (events : List build_event) : build_run :=
  let events1 := events ++ [build_event.create_ibfs]
  match env.create_ibfs_from_chopper_pack config with
  | Except.error what => { events := events1, outcome := build_outcome.thrown what }
  | Except.ok _ =>
    let directory := env.parent_path config.output_prefix
    let created : Bool := !env.directory_exists directory
    let events2 :=
      if created then events1 ++ [build_event.create_directories directory] else events1
    if created && !env.create_directories directory then
      { events := events2
        outcome := build_outcome.thrown ("Could not create directory " ++ directory) }
    else
      let run1 := write_archive env (config.output_prefix ++ "hibf.out")
        { events := events2, outcome := build_outcome.returned 0 }
      match run1.outcome with
      | build_outcome.thrown _ => run1
      | build_outcome.returned _ =>
        write_archive env (config.output_prefix ++ "position_mapping.out") run1

/-- The function `chopper_build(parser)`. On every path through the two conditions of lines 51
and 57 the query for `'p'` is made first and the query for `'s'` once after it (the `&&`
operators skip `'s'` in one condition exactly when the other one makes it), so the two queries
are made in this order before the conditions are decided. -/
def chopper_build (env : build_environment) : build_run :=
  match env.parse with
  | parse_outcome.other_exception what => { events := [], outcome := build_outcome.thrown what }
  | parse_outcome.argument_parser_error what =>
    { events := [build_event.debug_stream ("[CHOPPER BIULD ERROR] " ++ what ++ "\n")]
      outcome := build_outcome.returned (-1) }
  | parse_outcome.ok =>
    match env.is_option_set 'p' with
    | Except.error what =>
      { events := [build_event.debug_stream ("[CHOPPER BIULD ERROR] " ++ what ++ "\n")]
        outcome := build_outcome.returned (-1) }
    | Except.ok p_set =>
      match env.is_option_set 's' with
      | Except.error what =>
        { events := [build_event.debug_stream ("[CHOPPER BIULD ERROR] " ++ what ++ "\n")]
          outcome := build_outcome.returned (-1) }
      | Except.ok s_set =>
        if p_set && s_set then
          { events := [build_event.debug_stream
              ("[CHOPPER BIULD ERROR] Options -p/--pack-file and -s/--split_file "
                ++ "are mututal exclusive.\n")]
            outcome := build_outcome.returned (-1) }
        else if !p_set && !s_set then
          { events := [build_event.debug_stream
              ("[CHOPPER BIULD ERROR] Either option -p/--pack-file or -s/--split_file "
                ++ "must be provided.\n")]
            outcome := build_outcome.returned (-1) }
        else chopper_build_tail env env.parsed_config []

/-- Whether an event writes an output file. -/
def build_event.touches_file : build_event → Bool
  | build_event.open_file _ => true
  | build_event.archive _ => true
  | _ => false

/-! ## Sample inputs

A small engine and small inputs, used to instantiate the theorems below. -/

/-- A binning engine whose cost for `t_max` is `|t_max - 128| + 1` and whose layout text names
the `t_max` class it was run with. It reads the configuration through `tmax` only. -/
def sample_engine : layout_engine Unit double :=
  { previous_level := ()
    hibf_statistics := fun _ _ _ => double.finite 0
    binning := fun config kmer_counts _ _ _ =>
      { output := if config.tmax = 128 then "layout for 128" else "layout"
        header := if config.tmax = 128 then "header for 128" else "header"
        previous := ()
        stats :=
          if config.tmax ≤ 128 then double.finite (129 - config.tmax : Nat)
          else double.finite (config.tmax - 127 : Nat)
        max_hibf_id := kmer_counts.length / (config.tmax + 1) }
    finalize := fun stats => stats
    expected_HIBF_query_cost := fun stats => stats
    print_header_to := fun _ => "#T_Max"
    print_summary_to := fun t_max_64_memory _ _ => (t_max_64_memory, "row")
    verbose_default := true
    compute_fp_correction := fun _ _ tmax => List.replicate tmax 1
    write_layout_header_to := fun _ _ header => header }

/-- The same engine with a cost model that reports `+infinity` for every layout. -/
def sample_engine_unbounded : layout_engine Unit double :=
  { sample_engine with expected_HIBF_query_cost := fun _ => double.infinity }

/-- A configuration asking for the search with early exit, ceiling 256. -/
def sample_config : configuration :=
  { tmax := 256
    determine_best_tmax := true
    force_all_binnings := false
    output_verbose_statistics := false
    rearrange_user_bins := false
    estimate_union := false
    num_hash_functions := 2
    false_positive_rate := 1 / 20
    output_filename := "binning.out" }

/-- The same configuration with `force_all_binnings` set. -/
def sample_config_all : configuration :=
  { sample_config with force_all_binnings := true }

/-- A data store with three user bins whose two streams are the buffers 0 and 1. -/
def sample_data : data_store Unit double :=
  { output_buffer := 0
    header_buffer := 1
    previous := ()
    stats := double.finite 0
    kmer_counts := [500, 300, 100]
    fp_correction := [1, 1]
    filenames := ["a", "b", "c"] }

/-- The same user bins, with the two streams at other addresses and stale statistics. -/
def sample_data_moved : data_store Unit double :=
  { sample_data with output_buffer := 2, header_buffer := 0, stats := double.finite 7 }

/-- A buffer memory with stale text in the two streams. -/
def sample_memory : List String :=
  ["old layout", "old header"]

/-- Another buffer memory, with three buffers. -/
def sample_memory_moved : List String :=
  ["stale header", "unrelated", "stale layout"]

/-- A build environment in which only `-p` is given and everything succeeds. -/
def sample_build_environment : build_environment :=
  { parse := parse_outcome.ok
    parsed_config :=
      { chopper_pack_filename := "pack.tsv", k := 20, overlap := 0, FPR := 1 / 20,
        output_prefix := "out/", verbose := false }
    is_option_set := fun id => Except.ok (decide (id = 'p'))
    create_ibfs_from_chopper_pack := fun _ => Except.ok ()
    parent_path := fun _ => "out"
    directory_exists := fun _ => true
    create_directories := fun _ => true
    ofstream_usable := fun _ => true
    archive := fun _ => Except.ok () }

/-- A build environment in which neither `-p` nor `-s` is given. -/
def sample_build_environment_neither : build_environment :=
  { sample_build_environment with is_option_set := fun _ => Except.ok false }

/-! ## Properties of the candidate set, the buffers and the loop -/

theorem next_multiple_of_64_dvd (v : Nat) : 64 ∣ next_multiple_of_64 v := by
  unfold next_multiple_of_64; exact Nat.dvd_mul_left _ _

theorem le_next_multiple_of_64 (v : Nat) : v ≤ next_multiple_of_64 v := by
  unfold next_multiple_of_64; omega

theorem next_multiple_of_64_le (v m : Nat) (hm : 64 ∣ m) (hv : v ≤ m) :
    next_multiple_of_64 v ≤ m := by
  unfold next_multiple_of_64
  obtain ⟨k, rfl⟩ := hm
  omega

theorem next_multiple_of_64_of_dvd (v : Nat) (h : 64 ∣ v) : next_multiple_of_64 v = v := by
  unfold next_multiple_of_64
  obtain ⟨k, rfl⟩ := h
  omega

theorem le_ceil_sqrt_sq (n : Nat) : n ≤ ceil_sqrt n * ceil_sqrt n := by
  unfold ceil_sqrt
  split
  · omega
  · exact le_of_lt (Nat.lt_succ_sqrt n)

theorem ceil_sqrt_le (n k : Nat) (h : n ≤ k * k) : ceil_sqrt n ≤ k := by
  unfold ceil_sqrt
  split
  · rename_i heq
    by_contra hlt
    push_neg at hlt
    have : k * k < Nat.sqrt n * Nat.sqrt n := Nat.mul_self_lt_mul_self hlt
    omega
  · rename_i hne
    by_contra hlt
    push_neg at hlt
    have h1 : k ≤ Nat.sqrt n := by omega
    have h2 : k * k ≤ Nat.sqrt n * Nat.sqrt n := Nat.mul_self_le_mul_self h1
    have h3 := Nat.sqrt_le n
    omega

theorem mem_set_insert (x a : Nat) (l : List Nat) : a ∈ set_insert x l ↔ a = x ∨ a ∈ l := by
  induction l with
  | nil => simp [set_insert]
  | cons y ys ih =>
    unfold set_insert
    split
    · simp
    · split
      · rename_i h1 h2; subst h2; simp
      · simp [ih]; tauto

theorem set_insert_sorted (x : Nat) (l : List Nat) (h : l.Pairwise (· < ·)) :
    (set_insert x l).Pairwise (· < ·) := by
  induction l with
  | nil => simp [set_insert]
  | cons y ys ih =>
    rw [List.pairwise_cons] at h
    unfold set_insert
    split
    · rename_i hxy
      rw [List.pairwise_cons]
      refine ⟨?_, List.pairwise_cons.2 h⟩
      intro a ha
      rcases List.mem_cons.1 ha with rfl | ha
      · exact hxy
      · exact lt_trans hxy (h.1 a ha)
    · split
      · exact List.pairwise_cons.2 h
      · rename_i h1 h2
        rw [List.pairwise_cons]
        refine ⟨?_, ih h.2⟩
        intro a ha
        rcases (mem_set_insert x a ys).1 ha with rfl | ha
        · omega
        · exact h.1 a ha

theorem pow2_small (tmax i : Nat) (htmax : tmax < 2 ^ 63) (h : 64 * 2 ^ i ≤ tmax) : i < 57 := by
  by_contra hge
  push_neg at hge
  have h1 : 2 ^ 57 ≤ 2 ^ i := Nat.pow_le_pow_right (by norm_num) hge
  norm_num at htmax h1
  omega

theorem pow2_loop_spec (tmax : Nat) (htmax : tmax < 2 ^ 63) :
    ∀ (fuel i : Nat) (acc : List Nat), 58 ≤ fuel + i →
      ∃ r, pow2_loop tmax fuel (64 * 2 ^ i) acc = some r ∧
        (∀ x, x ∈ r ↔ x ∈ acc ∨ ∃ j, i ≤ j ∧ x = 64 * 2 ^ j ∧ x ≤ tmax) ∧
        (acc.Pairwise (· < ·) → r.Pairwise (· < ·)) := by
  intro fuel
  induction fuel with
  | zero =>
    intro i acc hfuel
    have hgt : ¬ 64 * 2 ^ i ≤ tmax := fun h => by
      have := pow2_small tmax i htmax h
      omega
    refine ⟨acc, by simp [pow2_loop, hgt], ?_, fun h => h⟩
    intro x
    constructor
    · intro hx; exact Or.inl hx
    · rintro (hx | ⟨j, hj, rfl, hle⟩)
      · exact hx
      · have := pow2_small tmax j htmax hle
        omega
  | succ fuel ih =>
    intro i acc hfuel
    by_cases hle : 64 * 2 ^ i ≤ tmax
    · have hi := pow2_small tmax i htmax hle
      have hnext : (64 * 2 ^ i * 2) % 2 ^ 64 = 64 * 2 ^ (i + 1) := by
        have e : 64 * 2 ^ (i + 1) = 64 * 2 ^ i * 2 := by rw [pow_succ, Nat.mul_assoc]
        rw [e]
        apply Nat.mod_eq_of_lt
        norm_num at htmax ⊢
        omega
      obtain ⟨r, hr, hmem, hsorted⟩ := ih (i + 1) (set_insert (64 * 2 ^ i) acc) (by omega)
      refine ⟨r, ?_, ?_, fun h => hsorted (set_insert_sorted _ _ h)⟩
      · simp only [pow2_loop, hle, if_true, hnext]
        exact hr
      · intro x
        rw [hmem, mem_set_insert]
        constructor
        · rintro ((rfl | hx) | ⟨j, hj, rfl, hx⟩)
          · exact Or.inr ⟨i, le_refl _, rfl, hle⟩
          · exact Or.inl hx
          · exact Or.inr ⟨j, by omega, rfl, hx⟩
        · rintro (hx | ⟨j, hj, rfl, hx⟩)
          · exact Or.inl (Or.inr hx)
          · rcases Nat.eq_or_lt_of_le hj with rfl | hlt
            · exact Or.inl (Or.inl rfl)
            · exact Or.inr ⟨j, hlt, rfl, hx⟩
    · refine ⟨acc, by simp [pow2_loop, hle], ?_, fun h => h⟩
      intro x
      constructor
      · intro hx; exact Or.inl hx
      · rintro (hx | ⟨j, hj, rfl, hx⟩)
        · exact hx
        · exfalso
          have : 2 ^ i ≤ 2 ^ j := Nat.pow_le_pow_right (by norm_num) hj
          omega

theorem potential_t_max_spec (fuel tmax n : Nat) (htmax : tmax < 2 ^ 63) (hfuel : 58 ≤ fuel) :
    ∃ candidates, potential_t_max fuel tmax n = some candidates ∧
      (∀ x, x ∈ candidates ↔
        (∃ i, x = 64 * 2 ^ i ∧ x ≤ tmax) ∨ x = next_multiple_of_64 (ceil_sqrt n)) ∧
      candidates.Pairwise (· < ·) := by
  obtain ⟨r, hr, hmem, hsorted⟩ := pow2_loop_spec tmax htmax fuel 0 [] (by omega)
  refine ⟨set_insert (next_multiple_of_64 (ceil_sqrt n)) r, ?_, ?_, ?_⟩
  · have h64 : (64 : Nat) = 64 * 2 ^ 0 := by norm_num
    unfold potential_t_max
    rw [h64, hr]
    rfl
  · intro x
    rw [mem_set_insert, hmem]
    constructor
    · rintro (rfl | hx | ⟨j, _, rfl, hx⟩)
      · exact Or.inr rfl
      · simp at hx
      · exact Or.inl ⟨j, rfl, hx⟩
    · rintro (⟨j, rfl, hx⟩ | rfl)
      · exact Or.inr (Or.inr ⟨j, Nat.zero_le _, rfl, hx⟩)
      · exact Or.inl rfl
  · exact set_insert_sorted _ _ (hsorted List.Pairwise.nil)

/-- Beyond the bound of `pow2_loop_spec` the doubling wraps around to 0 and the loop of lines
26-27 does not end: no amount of fuel gives a candidate set. -/
theorem pow2_loop_diverges (tmax : Nat) (htmax : 2 ^ 63 ≤ tmax) :
    ∀ (fuel t_max : Nat) (result : List Nat),
      (t_max = 0 ∨ ∃ i, i ≤ 57 ∧ t_max = 64 * 2 ^ i) →
      pow2_loop tmax fuel t_max result = none := by
  intro fuel
  induction fuel with
  | zero =>
    intro t_max result ht
    have hle : t_max ≤ tmax := by
      rcases ht with rfl | ⟨i, hi, rfl⟩
      · exact Nat.zero_le _
      · have : 2 ^ i ≤ 2 ^ 57 := Nat.pow_le_pow_right (by norm_num) hi
        norm_num at htmax this
        omega
    simp [pow2_loop, hle]
  | succ fuel ih =>
    intro t_max result ht
    have hle : t_max ≤ tmax := by
      rcases ht with rfl | ⟨i, hi, rfl⟩
      · exact Nat.zero_le _
      · have : 2 ^ i ≤ 2 ^ 57 := Nat.pow_le_pow_right (by norm_num) hi
        norm_num at htmax this
        omega
    simp only [pow2_loop, hle, if_true]
    apply ih
    rcases ht with rfl | ⟨i, hi, rfl⟩
    · exact Or.inl rfl
    · rcases Nat.eq_or_lt_of_le hi with rfl | hlt
      · exact Or.inl (by norm_num)
      · refine Or.inr ⟨i + 1, by omega, ?_⟩
        have e : 64 * 2 ^ (i + 1) = 64 * 2 ^ i * 2 := by rw [pow_succ, Nat.mul_assoc]
        rw [e]
        apply Nat.mod_eq_of_lt
        have : 2 ^ i ≤ 2 ^ 56 := Nat.pow_le_pow_right (by norm_num) (by omega)
        norm_num at this ⊢
        omega

theorem potential_t_max_diverges (fuel tmax n : Nat) (htmax : 2 ^ 63 ≤ tmax) :
    potential_t_max fuel tmax n = none := by
  unfold potential_t_max
  rw [pow2_loop_diverges tmax htmax fuel 64 [] (Or.inr ⟨0, by norm_num, by norm_num⟩)]
  rfl

theorem read_write_same (m : List String) (a : Nat) (x : String) (h : a < m.length) :
    read_buffer (write_buffer m a x) a = x := by
  simp [read_buffer, write_buffer, List.getD_eq_getElem?_getD, List.getElem?_set, h]

theorem read_write_other (m : List String) (a b : Nat) (x : String) (h : a ≠ b) :
    read_buffer (write_buffer m a x) b = read_buffer m b := by
  simp [read_buffer, write_buffer, List.getD_eq_getElem?_getD, List.getElem?_set, h]

theorem length_write (m : List String) (a : Nat) (x : String) :
    (write_buffer m a x).length = m.length := by
  simp [write_buffer]

theorem read_take (m : List String) (n a : Nat) (h : a < n) :
    read_buffer (m.take n) a = read_buffer m a := by
  simp [read_buffer, List.getD_eq_getElem?_getD, List.getElem?_take, h]

theorem read_append_left (m m2 : List String) (a : Nat) (h : a < m.length) :
    read_buffer (m ++ m2) a = read_buffer m a := by
  simp [read_buffer, List.getD_eq_getElem?_getD, List.getElem?_append_left h]

theorem read_fresh_out (m : List String) : read_buffer (m ++ ["", ""]) m.length = "" := by
  simp [read_buffer, List.getD_eq_getElem?_getD, List.getElem?_append_right (le_refl _)]

theorem read_fresh_hdr (m : List String) : read_buffer (m ++ ["", ""]) (m.length + 1) = "" := by
  simp [read_buffer, List.getD_eq_getElem?_getD, List.getElem?_append_right (Nat.le_succ _)]

theorem empty_append (x : String) : "" ++ x = x := by
  apply String.ext
  simp

/-- Reading the temporary streams after the engine has written into them. -/

theorem engine_writes (m : List String) (out hdr : String) :
    let memory0 := m ++ ["", ""]
    let memory1 := write_buffer memory0 m.length (read_buffer memory0 m.length ++ out)
    let memory2 := write_buffer memory1 (m.length + 1) (read_buffer memory1 (m.length + 1) ++ hdr)
    read_buffer memory2 m.length = out ∧ read_buffer memory2 (m.length + 1) = hdr ∧
    memory2.length = m.length + 2 ∧ ∀ a, a < m.length → read_buffer memory2 a = read_buffer m a := by
  intro memory0 memory1 memory2
  have hlen0 : memory0.length = m.length + 2 := by simp [memory0]
  have hlen1 : memory1.length = m.length + 2 := by simp [memory1, length_write, hlen0]
  refine ⟨?_, ?_, ?_, ?_⟩
  · show read_buffer (write_buffer memory1 _ _) _ = _
    rw [read_write_other _ _ _ _ (by omega)]
    show read_buffer (write_buffer memory0 _ _) _ = _
    rw [read_write_same _ _ _ (by omega), read_fresh_out, empty_append]
  · show read_buffer (write_buffer memory1 _ _) _ = _
    rw [read_write_same _ _ _ (by omega)]
    show read_buffer (write_buffer memory0 _ _) _ ++ _ = _
    rw [read_write_other _ _ _ _ (by omega), read_fresh_hdr, empty_append]
  · simp [memory2, length_write, hlen1]
  · intro a ha
    show read_buffer (write_buffer memory1 _ _) _ = _
    rw [read_write_other _ _ _ _ (by omega)]
    show read_buffer (write_buffer memory0 _ _) _ = _
    rw [read_write_other _ _ _ _ (by omega), read_append_left _ _ _ ha]

/-- Moving the two temporary streams into the original ones. -/

theorem move_streams (n oo oh : Nat) (memory1 : List String)
    (hlen : memory1.length = n + 2) (hoo : oo < n) (hoh : oh < n) (hne : oo ≠ oh) :
    let memory2 := write_buffer memory1 oo (read_buffer memory1 n)
    let memory3 := write_buffer memory2 n ""
    let memory4 := write_buffer memory3 oh (read_buffer memory3 (n + 1))
    let memory5 := write_buffer memory4 (n + 1) ""
    read_buffer (memory5.take n) oo = read_buffer memory1 n ∧
    read_buffer (memory5.take n) oh = read_buffer memory1 (n + 1) := by
  intro memory2 memory3 memory4 memory5
  have hlen2 : memory2.length = n + 2 := by simp [memory2, length_write, hlen]
  have hlen3 : memory3.length = n + 2 := by simp [memory3, length_write, hlen2]
  constructor
  · rw [read_take _ _ _ hoo]
    show read_buffer (write_buffer memory4 _ _) _ = _
    rw [read_write_other _ _ _ _ (by omega)]
    show read_buffer (write_buffer memory3 _ _) _ = _
    rw [read_write_other _ _ _ _ (Ne.symm hne)]
    show read_buffer (write_buffer memory2 _ _) _ = _
    rw [read_write_other _ _ _ _ (by omega)]
    show read_buffer (write_buffer memory1 _ _) _ = _
    rw [read_write_same _ _ _ (by omega)]
  · rw [read_take _ _ _ hoh]
    show read_buffer (write_buffer memory4 _ _) _ = _
    rw [read_write_other _ _ _ _ (by omega)]
    show read_buffer (write_buffer memory3 _ _) _ = _
    rw [read_write_same _ _ _ (by omega)]
    show read_buffer (write_buffer memory2 _ _) _ = _
    rw [read_write_other _ _ _ _ (by omega)]
    show read_buffer (write_buffer memory1 _ _) _ = _
    rw [read_write_other _ _ _ _ (by omega)]

variable {Prev Stats : Type}

theorem double_lt_not_nan (a b : double) (h : double_lt a b = true) :
    a.is_nan = false ∧ b.is_nan = false := by
  cases a <;> cases b <;> simp [double_lt, double.is_nan] at *

theorem double_lt_trans (a b c : double) (h1 : double_lt a b = true)
    (h2 : double_lt b c = true) : double_lt a c = true := by
  cases a <;> cases b <;> cases c <;> simp [double_lt] at *
  linarith

theorem double_lt_of_lt_of_le (a b c : double) (h1 : double_lt a b = true)
    (h2 : double_le b c = true) : double_lt a c = true := by
  cases a <;> cases b <;> cases c <;> simp [double_lt, double_le] at *
  linarith

theorem double_lt_of_le_of_lt (a b c : double) (h1 : double_le a b = true)
    (h2 : double_lt b c = true) : double_lt a c = true := by
  cases a <;> cases b <;> cases c <;> simp [double_lt, double_le] at *
  linarith

theorem double_le_of_lt (a b : double) (h : double_lt a b = true) : double_le a b = true := by
  cases a <;> cases b <;> simp [double_lt, double_le] at *
  linarith

theorem double_le_trans (a b c : double) (h1 : double_le a b = true)
    (h2 : double_le b c = true) : double_le a c = true := by
  cases a <;> cases b <;> cases c <;> simp [double_le] at *
  linarith

theorem double_le_refl (a : double) (h : a.is_nan = false) : double_le a a = true := by
  cases a <;> simp [double_le, double.is_nan] at *

theorem double_not_lt_of_le (a b : double) (h : double_le a b = true) :
    double_lt b a = false := by
  cases a <;> cases b <;> simp [double_lt, double_le] at *
  linarith

theorem double_le_of_not_lt (a b : double) (ha : a.is_nan = false) (hb : b.is_nan = false)
    (h : double_lt a b = false) : double_le b a = true := by
  cases a <;> cases b <;> simp [double_lt, double_le, double.is_nan] at *
  linarith

theorem double_le_finite (a b : ℚ) :
    double_le (double.finite a) (double.finite b) = true ↔ a ≤ b := by
  simp [double_le]

theorem double_lt_finite (a b : ℚ) :
    double_lt (double.finite a) (double.finite b) = true ↔ a < b := by
  simp [double_lt]

theorem double_finite_lt_infinity (a : double) (h : a.is_finite = true) :
    double_lt a double.infinity = true ∧ a.is_nan = false := by
  cases a <;> simp [double_lt, double.is_finite, double.is_nan] at *

theorem search_body_frame (E : layout_engine Prev Stats) (oo oh : Nat)
    (s : search_state Prev Stats) (t : Nat) :
    (search_body E oo oh s t).1.evaluated = s.evaluated ++ [t] ∧
    (search_body E oo oh s t).1.config = { s.config with tmax := t } ∧
    (search_body E oo oh s t).1.data.kmer_counts = s.data.kmer_counts ∧
    (search_body E oo oh s t).1.data.fp_correction = s.data.fp_correction ∧
    (search_body E oo oh s t).1.data.filenames = s.data.filenames ∧
    (search_body E oo oh s t).1.memory.length = s.memory.length ∧
    (search_body E oo oh s t).1.file_out = s.file_out ++
      [stats_line.summary t
        (E.print_summary_to s.t_max_64_memory
          (E.finalize (candidate_run E s.config s.data t).stats)
          s.config.output_verbose_statistics).2] ∧
    (search_body E oo oh s t).1.t_max_64_memory =
      (E.print_summary_to s.t_max_64_memory
        (E.finalize (candidate_run E s.config s.data t).stats)
        s.config.output_verbose_statistics).1 := by
  unfold search_body
  simp only []
  split
  · refine ⟨rfl, rfl, rfl, rfl, rfl, ?_, rfl, rfl⟩
    simp [hierarchical_binning_execute, length_write]
  · refine ⟨rfl, rfl, rfl, rfl, rfl, ?_, rfl, rfl⟩
    simp [hierarchical_binning_execute, length_write]

theorem search_body_improve (E : layout_engine Prev Stats) (oo oh : Nat)
    (s : search_state Prev Stats) (t : Nat)
    (h : double_lt (candidate_cost E s.config s.data t) s.best_expected_HIBF_query_cost = true) :
    (search_body E oo oh s t).2 = false ∧
    (search_body E oo oh s t).1.best_expected_HIBF_query_cost
      = candidate_cost E s.config s.data t ∧
    (search_body E oo oh s t).1.best_t_max = t ∧
    (search_body E oo oh s t).1.max_hibf_id = (candidate_run E s.config s.data t).max_hibf_id ∧
    (oo < s.memory.length → oh < s.memory.length → oo ≠ oh →
      read_buffer (search_body E oo oh s t).1.memory oo
        = (candidate_run E s.config s.data t).output ∧
      read_buffer (search_body E oo oh s t).1.memory oh
        = (candidate_run E s.config s.data t).header) := by
  have h' : double_lt (E.expected_HIBF_query_cost (E.finalize
      (hierarchical_binning_execute E
        { s.data with
          output_buffer := s.memory.length
          header_buffer := s.memory.length + 1
          previous := E.previous_level
          stats := E.hibf_statistics { s.config with tmax := t } s.data.fp_correction
            s.data.kmer_counts }
        { s.config with tmax := t } (s.memory ++ ["", ""])).2.1.stats))
      s.best_expected_HIBF_query_cost = true := h
  unfold search_body
  simp only [h', if_true]
  refine ⟨trivial, rfl, trivial, rfl, ?_⟩
  intro hoo hoh hne
  obtain ⟨e1, e2, e3, -⟩ := engine_writes s.memory (candidate_run E s.config s.data t).output
    (candidate_run E s.config s.data t).header
  have hm := move_streams s.memory.length oo oh _ e3 hoo hoh hne
  exact ⟨hm.1.trans e1, hm.2.trans e2⟩

theorem search_body_keep (E : layout_engine Prev Stats) (oo oh : Nat)
    (s : search_state Prev Stats) (t : Nat)
    (h : double_lt (candidate_cost E s.config s.data t) s.best_expected_HIBF_query_cost
      = false) :
    (search_body E oo oh s t).2 = !s.config.force_all_binnings ∧
    (search_body E oo oh s t).1.best_expected_HIBF_query_cost
      = s.best_expected_HIBF_query_cost ∧
    (search_body E oo oh s t).1.best_t_max = s.best_t_max ∧
    (search_body E oo oh s t).1.max_hibf_id = s.max_hibf_id ∧
    (∀ a, a < s.memory.length →
      read_buffer (search_body E oo oh s t).1.memory a = read_buffer s.memory a) := by
  have h' : double_lt (E.expected_HIBF_query_cost (E.finalize
      (hierarchical_binning_execute E
        { s.data with
          output_buffer := s.memory.length
          header_buffer := s.memory.length + 1
          previous := E.previous_level
          stats := E.hibf_statistics { s.config with tmax := t } s.data.fp_correction
            s.data.kmer_counts }
        { s.config with tmax := t } (s.memory ++ ["", ""])).2.1.stats))
      s.best_expected_HIBF_query_cost = false := h
  unfold search_body
  simp only [h']
  refine ⟨rfl, rfl, rfl, rfl, ?_⟩
  intro a ha
  obtain ⟨-, -, -, e4⟩ := engine_writes s.memory (candidate_run E s.config s.data t).output
    (candidate_run E s.config s.data t).header
  have := e4 a ha
  simp only [Bool.false_eq_true, if_false]
  rw [read_take _ _ _ ha]
  exact this

theorem same_inputs_run (E : layout_engine Prev Stats) (config : configuration)
    (data : data_store Prev Stats) (s : search_state Prev Stats) (h : same_inputs config data s)
    (t : Nat) : candidate_run E s.config s.data t = candidate_run E config data t := by
  obtain ⟨hc, hk, hf, -⟩ := h
  unfold candidate_run
  rw [hc t, hk, hf]

theorem same_inputs_cost (E : layout_engine Prev Stats) (config : configuration)
    (data : data_store Prev Stats) (s : search_state Prev Stats) (h : same_inputs config data s)
    (t : Nat) : candidate_cost E s.config s.data t = candidate_cost E config data t := by
  unfold candidate_cost
  rw [same_inputs_run E config data s h t]

theorem same_inputs_force (config : configuration)
    (data : data_store Prev Stats) (s : search_state Prev Stats) (h : same_inputs config data s) :
    s.config.force_all_binnings = config.force_all_binnings := by
  have h0 := congrArg configuration.force_all_binnings (h.1 0)
  exact h0

theorem same_inputs_verbose (config : configuration)
    (data : data_store Prev Stats) (s : search_state Prev Stats) (h : same_inputs config data s) :
    s.config.output_verbose_statistics = config.output_verbose_statistics := by
  have h0 := congrArg configuration.output_verbose_statistics (h.1 0)
  exact h0

theorem same_inputs_body (E : layout_engine Prev Stats) (oo oh : Nat) (config : configuration)
    (data : data_store Prev Stats) (s : search_state Prev Stats) (h : same_inputs config data s)
    (t : Nat) : same_inputs config data (search_body E oo oh s t).1 := by
  obtain ⟨-, hcfg, hk, hf, hn, -, -⟩ := search_body_frame E oo oh s t
  refine ⟨?_, hk.trans h.2.1, hf.trans h.2.2.1, hn.trans h.2.2.2⟩
  intro t'
  rw [hcfg]
  exact h.1 t'

theorem search_loop_cons (E : layout_engine Prev Stats) (oo oh : Nat)
    (s : search_state Prev Stats) (t : Nat) (rest : List Nat) :
    search_loop E oo oh s (t :: rest) =
      if (search_body E oo oh s t).2 then (search_body E oo oh s t).1
      else search_loop E oo oh (search_body E oo oh s t).1 rest := rfl

/-- The loop against the selection walk: what the state holds after the loop over `candidates`,
started in a state that holds the result of `best`. -/
theorem search_loop_spec (E : layout_engine Prev Stats) (oo oh : Nat) (config : configuration)
    (data : data_store Prev Stats) (memory_on_entry : List String) :
    ∀ (candidates : List Nat) (s : search_state Prev Stats) (best : Option Nat),
      same_inputs config data s → tracks E config data oo oh memory_on_entry s best →
      same_inputs config data (search_loop E oo oh s candidates) ∧
      tracks E config data oo oh memory_on_entry (search_loop E oo oh s candidates)
        (select_walk (candidate_cost E config data) config.force_all_binnings best candidates).1 ∧
      (search_loop E oo oh s candidates).evaluated = s.evaluated ++
        (select_walk (candidate_cost E config data) config.force_all_binnings best candidates).2 ∧
      (search_loop E oo oh s candidates).memory.length = s.memory.length ∧
      (search_loop E oo oh s candidates).file_out = s.file_out ++
        summary_rows E config data s.t_max_64_memory
          (select_walk (candidate_cost E config data) config.force_all_binnings best
            candidates).2 := by
  intro candidates
  induction candidates with
  | nil =>
    intro s best hs ht
    exact ⟨hs, ht, by simp [search_loop, select_walk], rfl,
      by simp [search_loop, select_walk, summary_rows]⟩
  | cons t rest ih =>
    intro s best hs ht
    obtain ⟨hev, -, -, -, -, hlen, hfile, hmem64⟩ := search_body_frame E oo oh s t
    have hs' := same_inputs_body E oo oh config data s hs t
    have hcost := same_inputs_cost E config data s hs t
    have hrun := same_inputs_run E config data s hs t
    rw [hrun, same_inputs_verbose config data s hs] at hfile hmem64
    rw [search_loop_cons]
    by_cases hc : double_lt (candidate_cost E config data t)
        (best_cost (candidate_cost E config data) best) = true
    · have hc' : double_lt (candidate_cost E s.config s.data t)
          s.best_expected_HIBF_query_cost = true := by rw [hcost, ht.1]; exact hc
      obtain ⟨hb, hbest, hbt, hid, hmem⟩ := search_body_improve E oo oh s t hc'
      have ht' : tracks E config data oo oh memory_on_entry (search_body E oo oh s t).1
          (some t) := by
        refine ⟨by rw [hbest, hcost]; rfl, ?_, fun h => by cases h⟩
        intro w hw
        cases hw
        refine ⟨hbt, by rw [hid, hrun], ?_⟩
        intro h1 h2 h3
        rw [hlen] at h1 h2
        rw [← hrun]
        exact hmem h1 h2 h3
      obtain ⟨i1, i2, i3, i4, i5⟩ := ih (search_body E oo oh s t).1 (some t) hs' ht'
      simp only [hb, select_walk, hc, if_true, Bool.false_eq_true, if_false]
      refine ⟨i1, i2, ?_, i4.trans hlen, ?_⟩
      · rw [i3, hev]; simp
      · rw [i5, hfile, hmem64]; simp [summary_rows]
    · have hcf : double_lt (candidate_cost E config data t)
        (best_cost (candidate_cost E config data) best) = false := by simpa using hc
      have hc' : double_lt (candidate_cost E s.config s.data t)
          s.best_expected_HIBF_query_cost = false := by rw [hcost, ht.1]; exact hcf
      obtain ⟨hb, hbest, hbt, hid, hmem⟩ := search_body_keep E oo oh s t hc'
      have ht' : tracks E config data oo oh memory_on_entry (search_body E oo oh s t).1
          best := by
        refine ⟨by rw [hbest]; exact ht.1, ?_, ?_⟩
        · intro w hw
          obtain ⟨k1, k2, k3⟩ := ht.2.1 w hw
          refine ⟨by rw [hbt]; exact k1, by rw [hid]; exact k2, ?_⟩
          intro h1 h2 h3
          rw [hlen] at h1 h2
          rw [hmem _ h1, hmem _ h2]
          exact k3 h1 h2 h3
        · intro hn
          obtain ⟨k1, k2, k3⟩ := ht.2.2 hn
          refine ⟨by rw [hbt]; exact k1, by rw [hid]; exact k2, ?_⟩
          intro a ha
          rw [hlen] at ha
          rw [hmem a ha]
          exact k3 a ha
      rw [same_inputs_force config data s hs] at hb
      cases hforce : config.force_all_binnings
      · simp only [hb, hforce, select_walk, hcf, Bool.not_false, if_true, Bool.false_eq_true,
          if_false]
        exact ⟨hs', ht', hev, hlen, by rw [hfile]; rfl⟩
      · obtain ⟨i1, i2, i3, i4, i5⟩ := ih (search_body E oo oh s t).1 best hs' ht'
        simp only [hforce] at i2 i3 i5
        simp only [hb, hforce, select_walk, hcf, Bool.not_true, if_true, Bool.false_eq_true,
          if_false]
        refine ⟨i1, i2, ?_, i4.trans hlen, ?_⟩
        · rw [i3, hev]; simp
        · rw [i5, hfile, hmem64]; simp [summary_rows]

theorem select_walk_none_cons (cost : Nat → double) (force : Bool) (t : Nat) (rest : List Nat)
    (h : double_lt (cost t) double.infinity = true) :
    select_walk cost force none (t :: rest) =
      ((select_walk cost force (some t) rest).1, t :: (select_walk cost force (some t) rest).2) := by
  simp [select_walk, best_cost, h]

theorem select_walk_force (cost : Nat → double) :
    ∀ (l : List Nat) (b : Option Nat), (select_walk cost true b l).2 = l := by
  intro l
  induction l with
  | nil => intro b; rfl
  | cons t rest ih =>
    intro b
    unfold select_walk
    split
    · simp [ih]
    · simp [ih]

theorem select_walk_initial (cost : Nat → double) (force : Bool) :
    ∀ (l : List Nat) (b : Option Nat), (select_walk cost force b l).2 <+: l := by
  intro l
  induction l with
  | nil => intro b; simp [select_walk]
  | cons t rest ih =>
    intro b
    unfold select_walk
    split
    · exact (List.prefix_cons_inj t).2 (ih _)
    · split
      · exact (List.prefix_cons_inj t).2 (ih _)
      · simp

/-- The first candidate is always visited. -/
theorem select_walk_head (cost : Nat → double) (force : Bool) (t : Nat) (rest : List Nat)
    (b : Option Nat) : ∃ more, (select_walk cost force b (t :: rest)).2 = t :: more := by
  unfold select_walk
  split
  · exact ⟨_, rfl⟩
  · split
    · exact ⟨_, rfl⟩
    · exact ⟨[], rfl⟩

theorem select_walk_winner_visited (cost : Nat → double) (force : Bool) :
    ∀ (l : List Nat) (b : Option Nat) (w : Nat), (select_walk cost force b l).1 = some w →
      b = some w ∨ w ∈ (select_walk cost force b l).2 := by
  intro l
  induction l with
  | nil => intro b w h; exact Or.inl h
  | cons t rest ih =>
    intro b w h
    by_cases hc : double_lt (cost t) (best_cost cost b) = true
    · simp only [select_walk, hc, if_true] at h ⊢
      rcases ih (some t) w h with h' | h'
      · cases h'; exact Or.inr (by simp)
      · exact Or.inr (List.mem_cons_of_mem _ h')
    · have hcf : double_lt (cost t) (best_cost cost b) = false := by simpa using hc
      cases force
      · simp only [select_walk, hcf, Bool.false_eq_true, if_false] at h ⊢
        exact Or.inl h
      · simp only [select_walk, hcf, Bool.false_eq_true, if_false, if_true] at h ⊢
        rcases ih b w h with h' | h'
        · exact Or.inl h'
        · exact Or.inr (List.mem_cons_of_mem _ h')

/-- Nothing is selected only if no visited candidate has a cost below `+infinity`. -/
theorem select_walk_nothing (cost : Nat → double) (force : Bool) :
    ∀ (l : List Nat) (b : Option Nat), (select_walk cost force b l).1 = none →
      b = none ∧ ∀ t ∈ (select_walk cost force b l).2,
        double_lt (cost t) double.infinity = false := by
  intro l
  induction l with
  | nil => intro b h; exact ⟨h, by simp [select_walk]⟩
  | cons t rest ih =>
    intro b h
    by_cases hc : double_lt (cost t) (best_cost cost b) = true
    · simp only [select_walk, hc, if_true] at h ⊢
      have := (ih (some t) h).1
      cases this
    · have hcf : double_lt (cost t) (best_cost cost b) = false := by simpa using hc
      cases force
      · simp only [select_walk, hcf, Bool.false_eq_true, if_false] at h ⊢
        subst h
        exact ⟨rfl, by simpa [best_cost] using hcf⟩
      · simp only [select_walk, hcf, Bool.false_eq_true, if_false, if_true] at h ⊢
        obtain ⟨hb, hrest⟩ := ih b h
        subst hb
        refine ⟨rfl, ?_⟩
        intro a ha
        rcases List.mem_cons.1 ha with rfl | ha
        · simpa [best_cost] using hcf
        · exact hrest a ha

/-- A visited candidate with a cost below `+infinity` makes the walk select something. -/
theorem select_walk_selects (cost : Nat → double) (force : Bool) (l : List Nat) (t : Nat)
    (ht : t ∈ (select_walk cost force none l).2)
    (hc : double_lt (cost t) double.infinity = true) :
    ∃ w, (select_walk cost force none l).1 = some w := by
  cases h : (select_walk cost force none l).1 with
  | some w => exact ⟨w, rfl⟩
  | none =>
    have := (select_walk_nothing cost force l none h).2 t ht
    rw [hc] at this
    cases this

theorem select_walk_result (cost : Nat → double) (force : Bool) :
    ∀ (l : List Nat) (b : Option Nat) (w : Nat), (best_cost cost b).is_nan = false →
      (select_walk cost force b l).1 = some w →
      (∀ a ∈ (select_walk cost force b l).2, double_lt (cost a) (cost w) = false) ∧
      double_le (cost w) (best_cost cost b) = true ∧
      (b = some w ∨ ∃ pre post, l = pre ++ w :: post ∧
        double_lt (cost w) (best_cost cost b) = true ∧
        ∀ a ∈ pre, double_lt (cost a) (cost w) = false ∧
          ((cost a).is_nan = false → double_lt (cost w) (cost a) = true)) := by
  intro l
  induction l with
  | nil =>
    intro b w hnan h
    have hb : b = some w := h
    subst hb
    exact ⟨by simp [select_walk], double_le_refl _ hnan, Or.inl rfl⟩
  | cons t rest ih =>
    intro b w hnan h
    by_cases hc : double_lt (cost t) (best_cost cost b) = true
    · simp only [select_walk, hc, if_true] at h ⊢
      obtain ⟨h1, h2, h3⟩ := ih (some t) w (double_lt_not_nan _ _ hc).1 h
      have h2' : double_le (cost w) (cost t) = true := h2
      have htw : double_lt (cost t) (cost w) = false := double_not_lt_of_le _ _ h2'
      refine ⟨?_, double_le_of_lt _ _ (double_lt_of_le_of_lt _ _ _ h2' hc), Or.inr ?_⟩
      · intro a ha
        rcases List.mem_cons.1 ha with rfl | ha
        · exact htw
        · exact h1 a ha
      · rcases h3 with h3 | ⟨pre, post, hl, hlt, hpre⟩
        · cases h3
          exact ⟨[], rest, rfl, hc, by simp⟩
        · have hlt' : double_lt (cost w) (cost t) = true := hlt
          refine ⟨t :: pre, post, by simp [hl], double_lt_trans _ _ _ hlt' hc, ?_⟩
          intro a ha
          rcases List.mem_cons.1 ha with rfl | ha
          · exact ⟨htw, fun _ => hlt'⟩
          · exact hpre a ha
    · have hcf : double_lt (cost t) (best_cost cost b) = false := by simpa using hc
      cases force
      · simp only [select_walk, hcf, Bool.false_eq_true, if_false] at h ⊢
        subst h
        refine ⟨?_, double_le_refl _ hnan, Or.inl rfl⟩
        intro a ha
        rw [List.mem_singleton.1 ha]
        exact hcf
      · simp only [select_walk, hcf, Bool.false_eq_true, if_false, if_true] at h ⊢
        obtain ⟨h1, h2, h3⟩ := ih b w hnan h
        have htw : double_lt (cost t) (cost w) = false := by
          cases hx : double_lt (cost t) (cost w) with
          | false => rfl
          | true =>
            have := double_lt_of_lt_of_le _ _ _ hx h2
            rw [hcf] at this
            cases this
        refine ⟨?_, h2, ?_⟩
        · intro a ha
          rcases List.mem_cons.1 ha with rfl | ha
          · exact htw
          · exact h1 a ha
        · rcases h3 with h3 | ⟨pre, post, hl, hlt, hpre⟩
          · exact Or.inl h3
          · refine Or.inr ⟨t :: pre, post, by simp [hl], hlt, ?_⟩
            intro a ha
            rcases List.mem_cons.1 ha with rfl | ha
            · refine ⟨htw, fun hn => ?_⟩
              exact double_lt_of_lt_of_le _ _ _ hlt (double_le_of_not_lt _ _ hn hnan hcf)
            · exact hpre a ha

/-- The walk with early exit: the candidates split into a run in which every candidate improves
on the best cost so far, and the rest; the walk selects the last candidate of the run and visits
the run and the candidate after it, which does not improve. -/
theorem select_walk_early_exit (cost : Nat → double) :
    ∀ (l : List Nat) (b : Option Nat), ∃ run rest,
      l = run ++ rest ∧
      strictly_descending cost (best_cost cost b) run ∧
      (select_walk cost false b l).1 = (b.toList ++ run).getLast? ∧
      ((rest = [] ∧ (select_walk cost false b l).2 = l) ∨
        ∃ x tail, rest = x :: tail ∧
          double_lt (cost x) (best_cost cost (b.toList ++ run).getLast?) = false ∧
          (select_walk cost false b l).2 = run ++ [x]) := by
  intro l
  induction l with
  | nil =>
    intro b
    refine ⟨[], [], rfl, trivial, ?_, Or.inl ⟨rfl, rfl⟩⟩
    cases b <;> simp [select_walk]
  | cons t rest' ih =>
    intro b
    by_cases hc : double_lt (cost t) (best_cost cost b) = true
    · obtain ⟨run, rest, hl, hd, hw, hev⟩ := ih (some t)
      have hlast : (b.toList ++ t :: run).getLast? = ((some t).toList ++ run).getLast? := by
        rw [List.getLast?_append_cons]; rfl
      refine ⟨t :: run, rest, by simp [hl], ⟨hc, hd⟩, ?_, ?_⟩
      · simp only [select_walk, hc, if_true]
        rw [hlast]; exact hw
      · simp only [select_walk, hc, if_true]
        rw [hlast]
        rcases hev with ⟨h1, h2⟩ | ⟨x, tail, h1, h2, h3⟩
        · exact Or.inl ⟨h1, by rw [h2]⟩
        · exact Or.inr ⟨x, tail, h1, h2, by rw [h3]; simp⟩
    · have hcf : double_lt (cost t) (best_cost cost b) = false := by simpa using hc
      have hlast : (b.toList ++ ([] : List Nat)).getLast? = b := by cases b <;> simp
      refine ⟨[], t :: rest', rfl, trivial, ?_, Or.inr ⟨t, rest', rfl, ?_, ?_⟩⟩
      · simp only [select_walk, hcf, Bool.false_eq_true, if_false]
        exact hlast.symm
      · rw [hlast]; exact hcf
      · simp only [select_walk, hcf, Bool.false_eq_true, if_false]
        rfl

/-- Along a run of improving candidates every cost is below the limit, and below the cost of
every earlier candidate of the run. -/
theorem strictly_descending_pairwise (cost : Nat → double) :
    ∀ (run : List Nat) (limit : double), strictly_descending cost limit run →
      (∀ a ∈ run, double_lt (cost a) limit = true) ∧
      run.Pairwise (fun a c => double_lt (cost c) (cost a) = true) := by
  intro run
  induction run with
  | nil => intro limit _; simp
  | cons t rest ih =>
    intro limit h
    obtain ⟨h1, h2⟩ := h
    obtain ⟨i1, i2⟩ := ih (cost t) h2
    refine ⟨?_, List.pairwise_cons.2 ⟨i1, i2⟩⟩
    intro a ha
    rcases List.mem_cons.1 ha with rfl | ha
    · exact h1
    · exact double_lt_trans _ _ _ (i1 a ha) h1

theorem sqrt_candidate_spec (n : Nat) :
    smallest_multiple_of_64_above_sqrt n (next_multiple_of_64 (ceil_sqrt n)) := by
  refine ⟨next_multiple_of_64_dvd _, ?_, ?_⟩
  · exact le_trans (le_ceil_sqrt_sq n)
      (Nat.mul_self_le_mul_self (le_next_multiple_of_64 _))
  · intro k hk hn
    exact next_multiple_of_64_le _ _ hk (ceil_sqrt_le n k hn)

theorem sqrt_candidate_unique (n m : Nat) (h : smallest_multiple_of_64_above_sqrt n m) :
    m = next_multiple_of_64 (ceil_sqrt n) := by
  have h0 := sqrt_candidate_spec n
  exact le_antisymm (h.2.2 _ h0.1 h0.2.1) (h0.2.2 _ h.1 h.2.1)

/-- The result of the search in terms of the selection walk over the candidate set. -/
theorem determine_best_walk (E : layout_engine Prev Stats) (fuel : Nat)
    (data : data_store Prev Stats) (config : configuration) (memory : List String)
    (htmax : config.tmax < 2 ^ 63) (hfuel : 58 ≤ fuel) :
    ∃ candidates s,
      potential_t_max fuel config.tmax data.kmer_counts.length = some candidates ∧
      determine_best_number_of_technical_bins E fuel data config memory = some s ∧
      candidates ≠ [] ∧ candidates.Pairwise (· < ·) ∧
      s.evaluated
        = (select_walk (candidate_cost E config data) config.force_all_binnings none
            candidates).2 ∧
      s.data.output_buffer = data.output_buffer ∧ s.data.header_buffer = data.header_buffer ∧
      s.memory.length = memory.length ∧
      s.config.tmax = s.best_t_max ∧
      s.file_out =
        [stats_line.parameters data.filenames.length config.num_hash_functions
            config.false_positive_rate,
          stats_line.header (E.print_header_to config.output_verbose_statistics)]
        ++ summary_rows E config data 0 s.evaluated ++ [stats_line.best_t_max s.best_t_max] ∧
      s.data.kmer_counts = data.kmer_counts ∧ s.data.fp_correction = data.fp_correction ∧
      (∀ w, (select_walk (candidate_cost E config data) config.force_all_binnings none
          candidates).1 = some w →
        s.best_t_max = w ∧
        s.max_hibf_id = (candidate_run E config data w).max_hibf_id ∧
        (data.output_buffer < memory.length → data.header_buffer < memory.length →
          data.output_buffer ≠ data.header_buffer →
          read_buffer s.memory data.output_buffer = (candidate_run E config data w).output ∧
          read_buffer s.memory data.header_buffer = (candidate_run E config data w).header)) ∧
      ((select_walk (candidate_cost E config data) config.force_all_binnings none
          candidates).1 = none →
        s.best_t_max = 0 ∧ s.max_hibf_id = 0 ∧
        ∀ a, a < memory.length → read_buffer s.memory a = read_buffer memory a) := by
  obtain ⟨candidates, hc, hmem, hsorted⟩ :=
    potential_t_max_spec fuel config.tmax data.kmer_counts.length htmax hfuel
  have hne : candidates ≠ [] := by
    intro h
    have := (hmem (next_multiple_of_64 (ceil_sqrt data.kmer_counts.length))).2 (Or.inr rfl)
    rw [h] at this
    simp at this
  have hin : same_inputs config data (search_init E data config memory) :=
    ⟨fun _ => rfl, rfl, rfl, rfl⟩
  have htr : tracks E config data data.output_buffer data.header_buffer memory
      (search_init E data config memory) none :=
    ⟨rfl, (fun w hw => by cases hw), (fun _ => ⟨rfl, rfl, fun _ _ => rfl⟩)⟩
  obtain ⟨k1, k2, k3, k4, k5⟩ :=
    search_loop_spec E data.output_buffer data.header_buffer config data memory candidates
      (search_init E data config memory) none hin htr
  have hev : (search_loop E data.output_buffer data.header_buffer
      (search_init E data config memory) candidates).evaluated
      = (select_walk (candidate_cost E config data) config.force_all_binnings none
          candidates).2 := by
    rw [k3]; rfl
  refine ⟨candidates, search_finish data.output_buffer data.header_buffer
    (search_loop E data.output_buffer data.header_buffer
      (search_init E data config memory) candidates), hc, ?_, hne, hsorted, hev, rfl, rfl, k4,
    rfl, ?_, k1.2.1, k1.2.2.1, ?_, ?_⟩
  · unfold determine_best_number_of_technical_bins
    rw [hc]
    rfl
  · show (search_loop E data.output_buffer data.header_buffer
      (search_init E data config memory) candidates).file_out ++ [stats_line.best_t_max _] = _
    rw [k5]
    show _ ++ summary_rows E config data 0 _ ++ _ =
      _ ++ summary_rows E config data 0 (search_loop E data.output_buffer data.header_buffer
      (search_init E data config memory) candidates).evaluated ++ _
    rw [hev]
    rfl
  · intro w hw
    obtain ⟨t3, t4, t5⟩ := k2.2.1 w hw
    refine ⟨t3, t4, ?_⟩
    intro h1 h2 h3
    have h1' : data.output_buffer < (search_loop E data.output_buffer data.header_buffer
      (search_init E data config memory) candidates).memory.length := by rw [k4]; exact h1
    have h2' : data.header_buffer < (search_loop E data.output_buffer data.header_buffer
      (search_init E data config memory) candidates).memory.length := by rw [k4]; exact h2
    exact t5 h1' h2' h3
  · intro hn
    obtain ⟨t3, t4, t5⟩ := k2.2.2 hn
    refine ⟨t3, t4, ?_⟩
    intro a ha
    have ha' : a < (search_loop E data.output_buffer data.header_buffer
      (search_init E data config memory) candidates).memory.length := by rw [k4]; exact ha
    exact t5 a ha'

theorem best_cost_none_not_nan (cost : Nat → double) : (best_cost cost none).is_nan = false :=
  rfl

theorem execute_adjust_tmax (config : configuration) :
    (execute_adjust config).tmax
      = if config.tmax % 64 ≠ 0 then next_multiple_of_64 config.tmax % 2 ^ 64
        else config.tmax := by
  unfold execute_adjust
  cases config.rearrange_user_bins <;> simp only [Bool.false_eq_true, if_false, if_true] <;>
    split <;> rfl

theorem execute_adjust_fields (config : configuration) :
    (execute_adjust config).false_positive_rate = config.false_positive_rate ∧
    (execute_adjust config).num_hash_functions = config.num_hash_functions ∧
    (execute_adjust config).determine_best_tmax = config.determine_best_tmax ∧
    (execute_adjust config).force_all_binnings = config.force_all_binnings := by
  unfold execute_adjust
  cases config.rearrange_user_bins <;> simp only [Bool.false_eq_true, if_false, if_true] <;>
    split <;> exact ⟨rfl, rfl, rfl, rfl⟩

theorem select_walk_singleton (cost : Nat → double) (force : Bool) (best : Option Nat)
    (t : Nat) : (select_walk cost force best [t]).2 = [t] := by
  by_cases hc : double_lt (cost t) (best_cost cost best) = true
  · simp only [select_walk, hc, if_true]
  · cases force <;> simp only [select_walk, hc, if_false, if_true, Bool.false_eq_true]

theorem select_walk_two (cost : Nat → double) (force : Bool) (a b : Nat)
    (h : force = true ∨ double_lt (cost a) double.infinity = true) :
    (select_walk cost force none [a, b]).2 = [a, b] := by
  rcases h with h | h
  · subst h
    exact select_walk_force cost _ _
  · rw [select_walk_none_cons cost force a [b] h]
    simp only [select_walk_singleton]

theorem ceil_sqrt_4097 : ceil_sqrt 4097 = 65 := by
  norm_num [ceil_sqrt]

theorem ceil_sqrt_zero : ceil_sqrt 0 = 0 := by
  norm_num [ceil_sqrt]

theorem ceil_sqrt_three : ceil_sqrt 3 = 2 := by
  norm_num [ceil_sqrt]

theorem potential_t_max_4097 : potential_t_max 64 64 4097 = some [64, 128] := by
  unfold potential_t_max
  rw [ceil_sqrt_4097]
  decide

theorem potential_t_max_zero : potential_t_max 64 64 0 = some [0, 64] := by
  unfold potential_t_max
  rw [ceil_sqrt_zero]
  decide

theorem potential_t_max_sample : potential_t_max 64 256 3 = some [64, 128, 256] := by
  unfold potential_t_max
  rw [ceil_sqrt_three]
  decide

theorem execute_with_search (E : layout_engine Prev Stats) (fuel : Nat)
    (config : configuration) (data : data_store Prev Stats) (memory : List String)
    (s : search_state Prev Stats)
    (hd : (execute_adjust config).determine_best_tmax = true)
    (h : determine_best_number_of_technical_bins E fuel
      { data with
        fp_correction :=
          E.compute_fp_correction (execute_adjust config).false_positive_rate
            (execute_adjust config).num_hash_functions (execute_adjust config).tmax }
      (execute_adjust config) memory = some s) :
    ∃ r, execute E fuel config data memory = some r ∧ r.engine_tmax = s.evaluated ∧
      r.data = s.data ∧ r.config = s.config ∧ r.memory = s.memory ∧
      r.stats_file = s.file_out := by
  simp only [execute, hd, if_true, h, Option.map_some']
  exact ⟨_, rfl, rfl, rfl, rfl, rfl, rfl⟩

theorem execute_adjust_sample (force : Bool) :
    execute_adjust { sample_config with tmax := 64, force_all_binnings := force }
      = { sample_config with tmax := 64, force_all_binnings := force } := by
  simp [execute_adjust, sample_config]

/-- The engine calls of `execute` with the ceiling 64 when the candidate set is `[a, b]`: both
candidates reach the engine when all binnings are forced or the first cost is below
`+infinity`. -/
theorem execute_two_candidates (E : layout_engine Prev Stats) (previous : Prev)
    (stats : Stats) (memory : List String) (force : Bool) (kmer_counts : List Nat) (a b : Nat)
    (hcand : potential_t_max 64 64 kmer_counts.length = some [a, b])
    (h : force = true ∨ ∀ st, double_lt (E.expected_HIBF_query_cost st) double.infinity = true) :
    ∃ r,
      execute E 64 { sample_config with tmax := 64, force_all_binnings := force }
        { output_buffer := 0, header_buffer := 1, previous := previous, stats := stats,
          kmer_counts := kmer_counts, fp_correction := [], filenames := [] }
        memory = some r ∧
      r.data.fp_correction = E.compute_fp_correction (1 / 20) 2 64 ∧
      r.engine_tmax = [a, b] := by
  have hadj := execute_adjust_sample force
  obtain ⟨candidates, s, h1, h2, -, -, h5, -, -, -, -, -, -, h12, -⟩ :=
    determine_best_walk E 64
      { output_buffer := 0, header_buffer := 1, previous := previous, stats := stats,
        kmer_counts := kmer_counts,
        fp_correction := E.compute_fp_correction (1 / 20) 2 64, filenames := [] }
      { sample_config with tmax := 64, force_all_binnings := force } memory
      (by norm_num [sample_config]) (by norm_num)
  have h1' : potential_t_max 64 64 kmer_counts.length = some candidates := h1
  rw [hcand] at h1'
  cases h1'
  rw [select_walk_two _ _ _ _ (h.imp id (fun hf => hf _))] at h5
  obtain ⟨r, e1, e2, e3, -⟩ := execute_with_search E 64
    { sample_config with tmax := 64, force_all_binnings := force }
    { output_buffer := 0, header_buffer := 1, previous := previous, stats := stats,
      kmer_counts := kmer_counts, fp_correction := [], filenames := [] }
    memory s (by rw [hadj]; rfl) (by rw [hadj]; exact h2)
  exact ⟨r, e1, by rw [e3]; exact h12, by rw [e2]; exact h5⟩

theorem write_archive_returned (env : build_environment) (out_filename : String)
    (run : build_run) (code : Int)
    (h : (write_archive env out_filename run).outcome = build_outcome.returned code) :
    env.ofstream_usable out_filename = true ∧ env.archive out_filename = Except.ok () ∧
      run.outcome = build_outcome.returned code := by
  unfold write_archive at h
  cases hu : env.ofstream_usable out_filename
  · simp [hu] at h
  · cases ha : env.archive out_filename with
    | error what => simp [hu, ha] at h
    | ok u =>
      simp only [hu, ha, Bool.not_true, Bool.false_eq_true, if_false] at h
      exact ⟨rfl, rfl, h⟩

theorem chopper_build_tail_returned (env : build_environment) (config : build_config)
    (events : List build_event) (code : Int)
    (h : (chopper_build_tail env config events).outcome = build_outcome.returned code) :
    env.create_ibfs_from_chopper_pack config = Except.ok () ∧
    (env.directory_exists (env.parent_path config.output_prefix) = true ∨
      env.create_directories (env.parent_path config.output_prefix) = true) ∧
    env.ofstream_usable (config.output_prefix ++ "hibf.out") = true ∧
    env.archive (config.output_prefix ++ "hibf.out") = Except.ok () ∧
    env.ofstream_usable (config.output_prefix ++ "position_mapping.out") = true ∧
    env.archive (config.output_prefix ++ "position_mapping.out") = Except.ok () := by
  unfold chopper_build_tail at h
  cases hc : env.create_ibfs_from_chopper_pack config with
  | error what => simp [hc] at h
  | ok u =>
    simp only [hc] at h
    split at h
    · simp at h
    · rename_i hdir
      split at h
      · rename_i what hrun
        rw [hrun] at h
        cases h
      · rename_i c hrun
        obtain ⟨m1, m2, -⟩ := write_archive_returned _ _ _ _ h
        obtain ⟨n1, n2, -⟩ := write_archive_returned _ _ _ _ hrun
        refine ⟨rfl, ?_, n1, n2, m1, m2⟩
        cases hex : env.directory_exists (env.parent_path config.output_prefix)
        · cases hcr : env.create_directories (env.parent_path config.output_prefix)
          · simp [hex, hcr] at hdir
          · exact Or.inr rfl
        · exact Or.inl rfl

theorem sample_engine_cost_finite (config : configuration) (data : data_store Unit double)
    (t : Nat) : (candidate_cost sample_engine config data t).is_finite = true := by
  simp only [candidate_cost, candidate_run, sample_engine]
  split <;> rfl

theorem sample_engine_reads_tmax_only :
    (∀ (c c' : configuration) (kmer_counts : List Nat) (fp : List ℚ) (previous : Unit)
      (stats : double), c.tmax = c'.tmax →
      sample_engine.binning c kmer_counts fp previous stats
        = sample_engine.binning c' kmer_counts fp previous stats) ∧
    (∀ (c c' : configuration) (fp : List ℚ) (kmer_counts : List Nat), c.tmax = c'.tmax →
      sample_engine.hibf_statistics c fp kmer_counts
        = sample_engine.hibf_statistics c' fp kmer_counts) :=
  ⟨fun c c' _ _ _ _ h => by simp only [sample_engine, h], fun _ _ _ _ _ => rfl⟩

theorem summary_rows_candidates (E : layout_engine Prev Stats) (config : configuration)
    (data : data_store Prev Stats) :
    ∀ (evaluated : List Nat) (t_max_64_memory : Nat),
      (summary_rows E config data t_max_64_memory evaluated).filterMap stats_line.candidate
        = evaluated := by
  intro evaluated
  induction evaluated with
  | nil => intro _; rfl
  | cons t rest ih =>
    intro m
    simp [summary_rows, List.filterMap_cons, stats_line.candidate, ih]

theorem select_walk_never (cost : Nat → double) (force : Bool) :
    ∀ (l : List Nat), (∀ t ∈ l, double_lt (cost t) double.infinity = false) →
      (select_walk cost force none l).1 = none := by
  intro l
  induction l with
  | nil => intro _; rfl
  | cons t rest ih =>
    intro h
    have ht : double_lt (cost t) (best_cost cost none) = false := h t (by simp)
    cases force
    · simp only [select_walk, ht, Bool.false_eq_true, if_false]
    · simp only [select_walk, ht, Bool.false_eq_true, if_false, if_true]
      exact ih (fun a ha => h a (List.mem_cons_of_mem _ ha))

theorem select_walk_stops_at_head (cost : Nat → double) (t : Nat) (rest : List Nat)
    (h : double_lt (cost t) double.infinity = false) :
    (select_walk cost false none (t :: rest)).2 = [t] := by
  have ht : double_lt (cost t) (best_cost cost none) = false := h
  simp only [select_walk, ht, Bool.false_eq_true, if_false]

theorem sample_engine_unbounded_cost (config : configuration) (data : data_store Unit double)
    (t : Nat) : candidate_cost sample_engine_unbounded config data t = double.infinity := rfl

theorem sample_candidates :
    potential_t_max 64 sample_config.tmax sample_data.kmer_counts.length
      = some [64, 128, 256] :=
  potential_t_max_sample

/-! ## The claims -/

/-- C1: with `force_all_binnings` set, the search calls the binning engine for every candidate of
the candidate set, and when the expected query costs of the candidates are finite the selected
`best_t_max` is a candidate whose cost is the minimum over all candidates. -/
theorem force_all_binnings_selects_global_best (E : layout_engine Prev Stats) (fuel : Nat)
    (data : data_store Prev Stats) (config : configuration) (memory : List String)
    (htmax : config.tmax < 2 ^ 63) (hfuel : 58 ≤ fuel)
    (hforce : config.force_all_binnings = true) :
    ∃ candidates s,
      potential_t_max fuel config.tmax data.kmer_counts.length = some candidates ∧
      determine_best_number_of_technical_bins E fuel data config memory = some s ∧
      candidates ≠ [] ∧
      s.evaluated = candidates ∧
      ((∀ t ∈ candidates, (candidate_cost E config data t).is_finite = true) →
        s.best_t_max ∈ candidates ∧
        ∀ t ∈ candidates,
          double_le (candidate_cost E config data s.best_t_max) (candidate_cost E config data t)
            = true) := by
  obtain ⟨candidates, s, h1, h2, h3, -, h5, -, -, -, -, -, -, -, h13, -⟩ :=
    determine_best_walk E fuel data config memory htmax hfuel
  rw [hforce] at h5 h13
  have hev : s.evaluated = candidates := by rw [h5, select_walk_force]
  refine ⟨candidates, s, h1, h2, h3, hev, ?_⟩
  intro hfin
  obtain ⟨c, hc⟩ : ∃ c, c ∈ candidates := by
    cases candidates with
    | nil => exact absurd rfl h3
    | cons c cs => exact ⟨c, by simp⟩
  obtain ⟨w, hw⟩ := select_walk_selects (candidate_cost E config data) true candidates c
    (by rw [select_walk_force]; exact hc) (double_finite_lt_infinity _ (hfin c hc)).1
  obtain ⟨r1, -, r3⟩ := select_walk_result _ _ candidates none w rfl hw
  rw [select_walk_force] at r1
  have hmem : w ∈ candidates := by
    rcases r3 with r3 | ⟨pre, post, hl, -, -⟩
    · cases r3
    · rw [hl]; simp
  rw [(h13 w hw).1]
  refine ⟨hmem, ?_⟩
  intro t ht
  exact double_le_of_not_lt _ _ (double_finite_lt_infinity _ (hfin t ht)).2
    (double_finite_lt_infinity _ (hfin w hmem)).2 (r1 t ht)

/-- Instance of C1 on the sample inputs with `force_all_binnings` set. -/
theorem force_all_binnings_selects_global_best_witness :
    sample_config_all.tmax < 2 ^ 63 ∧ 58 ≤ 64 ∧ sample_config_all.force_all_binnings = true ∧
    ∃ candidates s,
      potential_t_max 64 sample_config_all.tmax sample_data.kmer_counts.length
        = some candidates ∧
      determine_best_number_of_technical_bins sample_engine 64 sample_data sample_config_all
        sample_memory = some s ∧
      candidates ≠ [] ∧
      s.evaluated = candidates ∧
      (∀ t ∈ candidates,
        (candidate_cost sample_engine sample_config_all sample_data t).is_finite = true) ∧
      s.best_t_max ∈ candidates ∧
      ∀ t ∈ candidates,
        double_le (candidate_cost sample_engine sample_config_all sample_data s.best_t_max)
          (candidate_cost sample_engine sample_config_all sample_data t) = true := by
  obtain ⟨candidates, s, h1, h2, h3, h4, h5⟩ :=
    force_all_binnings_selects_global_best sample_engine 64 sample_data sample_config_all
      sample_memory (by decide) (by decide) rfl
  have hfin : ∀ t ∈ candidates,
      (candidate_cost sample_engine sample_config_all sample_data t).is_finite = true :=
    fun t _ => sample_engine_cost_finite _ _ t
  exact ⟨by decide, by decide, rfl, candidates, s, h1, h2, h3, h4, hfin, (h5 hfin).1,
    (h5 hfin).2⟩

/-- C2, as stated, fails: with a cost model that reports `+infinity` and early exit, the search
on the sample inputs evaluates the first candidate only and selects nothing; `best_t_max` stays
0, which is not a candidate, so it is not the last candidate of the run that starts at the first
candidate. -/
theorem early_exit_selects_nothing_at_infinite_cost :
    ∃ s,
      potential_t_max 64 sample_config.tmax sample_data.kmer_counts.length
        = some [64, 128, 256] ∧
      determine_best_number_of_technical_bins sample_engine_unbounded 64 sample_data
        sample_config sample_memory = some s ∧
      sample_config.force_all_binnings = false ∧
      s.evaluated = [64] ∧
      s.best_t_max = 0 ∧
      s.best_t_max ∉ [64, 128, 256] := by
  obtain ⟨candidates, s, h1, h2, -, -, h5, -, -, -, -, -, -, -, -, h14⟩ :=
    determine_best_walk sample_engine_unbounded 64 sample_data sample_config sample_memory
      (by decide) (by decide)
  rw [sample_candidates] at h1
  cases h1
  have hforce : sample_config.force_all_binnings = false := rfl
  rw [hforce] at h5 h14
  have hbest := (h14 (select_walk_never _ _ _ (fun t _ => rfl))).1
  refine ⟨s, sample_candidates, h2, rfl, ?_, hbest, ?_⟩
  · rw [h5]; exact select_walk_stops_at_head _ _ _ rfl
  · rw [hbest]; decide

/-- C2, amended: without `force_all_binnings`, when the cost of the first candidate is below
`+infinity`, the ascending candidate set splits into a run of candidates with strictly
decreasing costs that starts at the first candidate and ends at `w`, and the rest. The selected
`best_t_max` is `w`, the last candidate of the run. If nothing follows the run, every candidate
is evaluated; otherwise the candidate `x` that follows the run has a cost that is not below the
best cost seen so far (that of `w`), the candidates evaluated are the run and `x`, and no
candidate after `x` is passed to the binning engine. -/
theorem early_exit_stops_at_first_non_improvement (E : layout_engine Prev Stats) (fuel : Nat)
    (data : data_store Prev Stats) (config : configuration) (memory : List String)
    (htmax : config.tmax < 2 ^ 63) (hfuel : 58 ≤ fuel)
    (hforce : config.force_all_binnings = false) :
    ∃ candidates s,
      potential_t_max fuel config.tmax data.kmer_counts.length = some candidates ∧
      determine_best_number_of_technical_bins E fuel data config memory = some s ∧
      candidates.Pairwise (· < ·) ∧
      ((∀ c, candidates.head? = some c →
          double_lt (candidate_cost E config data c) double.infinity = true) →
        ∃ run w rest,
          candidates = run ++ w :: rest ∧
          (run ++ [w]).Pairwise
            (fun a c =>
              double_lt (candidate_cost E config data c) (candidate_cost E config data a)
                = true) ∧
          (∀ a ∈ run ++ [w],
            double_le (candidate_cost E config data w) (candidate_cost E config data a)
              = true) ∧
          s.best_t_max = w ∧
          ((rest = [] ∧ s.evaluated = candidates) ∨
            ∃ x tail, rest = x :: tail ∧
              double_lt (candidate_cost E config data x) (candidate_cost E config data w)
                = false ∧
              s.evaluated = run ++ [w, x] ∧
              ∀ t ∈ tail, t ∉ s.evaluated)) := by
  obtain ⟨candidates, s, h1, h2, h3, h4, h5, -, -, -, -, -, -, -, h13, -⟩ :=
    determine_best_walk E fuel data config memory htmax hfuel
  rw [hforce] at h5 h13
  refine ⟨candidates, s, h1, h2, h4, ?_⟩
  intro hfirst
  obtain ⟨run0, rest, e1, e2, e3, e4⟩ :=
    select_walk_early_exit (candidate_cost E config data) candidates none
  have hnil : (none : Option Nat).toList ++ run0 = run0 := rfl
  rw [hnil] at e3 e4
  have hrun : run0 ≠ [] := by
    intro hr
    subst hr
    rcases e4 with ⟨k1, -⟩ | ⟨x, tail, k1, k2, -⟩
    · subst k1
      exact h3 e1
    · subst k1
      have hx := hfirst x (by rw [e1]; rfl)
      have k2' : double_lt (candidate_cost E config data x) double.infinity = false := k2
      rw [hx] at k2'
      cases k2'
  obtain ⟨run, w, hw⟩ : ∃ run w, run0 = run ++ [w] := by
    rcases List.eq_nil_or_concat run0 with h | ⟨run, w, h⟩
    · exact absurd h hrun
    · exact ⟨run, w, by rw [h, List.concat_eq_append]⟩
  subst hw
  have hlast : (run ++ [w]).getLast? = some w := List.getLast?_concat run
  rw [hlast] at e3 e4
  obtain ⟨p1, p2⟩ := strictly_descending_pairwise _ _ _ e2
  refine ⟨run, w, rest, by rw [e1]; simp, p2, ?_, (h13 w e3).1, ?_⟩
  · intro a ha
    rcases List.mem_append.1 ha with ha' | ha'
    · exact double_le_of_lt _ _ ((List.pairwise_append.1 p2).2.2 a ha' w (by simp))
    · rw [List.mem_singleton.1 ha']
      exact double_le_refl _ (double_lt_not_nan _ _ (p1 w (by simp))).1
  · rcases e4 with ⟨k1, k2⟩ | ⟨x, tail, k1, k2, k3⟩
    · exact Or.inl ⟨k1, by rw [h5, k2]⟩
    · refine Or.inr ⟨x, tail, k1, k2, by rw [h5, k3]; simp, ?_⟩
      intro t ht hmem
      rw [h5, k3] at hmem
      rw [e1, k1] at h4
      have hsplit : run ++ [w] ++ x :: tail = (run ++ [w] ++ [x]) ++ tail := by simp
      rw [hsplit] at h4
      have := (List.pairwise_append.1 h4).2.2 t hmem t ht
      omega

/-- Instance of C2, amended, on the sample inputs, whose costs are finite. -/
theorem early_exit_stops_at_first_non_improvement_witness :
    sample_config.tmax < 2 ^ 63 ∧ 58 ≤ 64 ∧ sample_config.force_all_binnings = false ∧
    ∃ candidates s run w rest,
      potential_t_max 64 sample_config.tmax sample_data.kmer_counts.length = some candidates ∧
      determine_best_number_of_technical_bins sample_engine 64 sample_data sample_config
        sample_memory = some s ∧
      candidates = run ++ w :: rest ∧
      s.best_t_max = w ∧
      ((rest = [] ∧ s.evaluated = candidates) ∨
        ∃ x tail, rest = x :: tail ∧
          double_lt (candidate_cost sample_engine sample_config sample_data x)
            (candidate_cost sample_engine sample_config sample_data w) = false ∧
          s.evaluated = run ++ [w, x] ∧
          ∀ t ∈ tail, t ∉ s.evaluated) := by
  obtain ⟨candidates, s, h1, h2, -, h4⟩ :=
    early_exit_stops_at_first_non_improvement sample_engine 64 sample_data sample_config
      sample_memory (by decide) (by decide) rfl
  obtain ⟨run, w, rest, k1, -, -, k4, k5⟩ := h4 (fun c _ =>
    (double_finite_lt_infinity _ (sample_engine_cost_finite sample_config sample_data c)).1)
  exact ⟨by decide, by decide, rfl, candidates, s, run, w, rest, h1, h2, k1, k4, k5⟩

/-- C4: for a ceiling below `2^63` the candidate set is exactly the numbers `64 * 2^i` up to the
ceiling together with the smallest multiple of 64 at or above the square root of the number of
user bins; it is strictly ascending (so no value occurs twice), and the candidates passed to the
binning engine are an initial part of it, all of it when `force_all_binnings` is set. -/
theorem candidate_set_is_powers_of_two_and_sqrt (E : layout_engine Prev Stats) (fuel : Nat)
    (data : data_store Prev Stats) (config : configuration) (memory : List String)
    (htmax : config.tmax < 2 ^ 63) (hfuel : 58 ≤ fuel) :
    ∃ candidates s,
      potential_t_max fuel config.tmax data.kmer_counts.length = some candidates ∧
      determine_best_number_of_technical_bins E fuel data config memory = some s ∧
      (∀ x, x ∈ candidates ↔
        (∃ i, x = 64 * 2 ^ i ∧ x ≤ config.tmax) ∨
          smallest_multiple_of_64_above_sqrt data.kmer_counts.length x) ∧
      candidates.Pairwise (· < ·) ∧
      s.evaluated <+: candidates ∧
      (config.force_all_binnings = true → s.evaluated = candidates) := by
  obtain ⟨candidates, s, h1, h2, -, h4, h5, -⟩ :=
    determine_best_walk E fuel data config memory htmax hfuel
  obtain ⟨c', g1, g2, -⟩ :=
    potential_t_max_spec fuel config.tmax data.kmer_counts.length htmax hfuel
  rw [h1] at g1
  cases g1
  refine ⟨candidates, s, h1, h2, ?_, h4, ?_, ?_⟩
  · intro x
    rw [g2]
    constructor
    · rintro (h | h)
      · exact Or.inl h
      · exact Or.inr (h ▸ sqrt_candidate_spec _)
    · rintro (h | h)
      · exact Or.inl h
      · exact Or.inr (sqrt_candidate_unique _ _ h)
  · rw [h5]; exact select_walk_initial _ _ _ _
  · intro hf
    rw [h5, hf, select_walk_force]

/-- Instance of C4 on the sample inputs. -/
theorem candidate_set_is_powers_of_two_and_sqrt_witness :
    sample_config.tmax < 2 ^ 63 ∧ 58 ≤ 64 ∧
    ∃ candidates s,
      potential_t_max 64 sample_config.tmax sample_data.kmer_counts.length = some candidates ∧
      determine_best_number_of_technical_bins sample_engine 64 sample_data sample_config
        sample_memory = some s ∧
      (∀ x, x ∈ candidates ↔
        (∃ i, x = 64 * 2 ^ i ∧ x ≤ sample_config.tmax) ∨
          smallest_multiple_of_64_above_sqrt sample_data.kmer_counts.length x) ∧
      candidates.Pairwise (· < ·) ∧
      s.evaluated <+: candidates ∧
      (sample_config.force_all_binnings = true → s.evaluated = candidates) :=
  ⟨by decide, by decide,
    candidate_set_is_powers_of_two_and_sqrt sample_engine 64 sample_data sample_config
      sample_memory (by decide) (by decide)⟩

/-- C5, as stated, fails at the top of the range of `size_t`: the requested count `2^64 - 1` is
rounded to `2^64`, which the field stores as 0, and 0 is not at or above the request. -/
theorem rounding_wraps_at_top_of_range :
    (execute_adjust { sample_config with tmax := 2 ^ 64 - 1 }).tmax = 0 ∧
    ¬ (({ sample_config with tmax := 2 ^ 64 - 1 } : configuration).tmax
      ≤ (execute_adjust { sample_config with tmax := 2 ^ 64 - 1 }).tmax) := by
  have h : (execute_adjust { sample_config with tmax := 2 ^ 64 - 1 }).tmax = 0 := by
    rw [execute_adjust_tmax]
    norm_num [next_multiple_of_64]
  rw [h]
  exact ⟨rfl, by norm_num⟩

/-- C5, amended: when the requested count rounded up to a multiple of 64 still fits a `size_t`,
the value of `config.tmax` after the adjustment at the start of `execute` is the smallest
multiple of 64 at or above the requested count, and the requested count itself when that is a
multiple of 64 (100 becomes 128). With this value `execute` computes the FP correction, and with
the configuration that holds it `execute` calls the binning engine when no search is requested,
or runs the search, which takes it as its ceiling, otherwise. -/
theorem tmax_rounded_up_to_multiple_of_64 (E : layout_engine Prev Stats) (fuel : Nat)
    (config : configuration) (data : data_store Prev Stats) (memory : List String)
    (hfit : next_multiple_of_64 config.tmax < 2 ^ 64) :
    64 ∣ (execute_adjust config).tmax ∧
    config.tmax ≤ (execute_adjust config).tmax ∧
    (∀ m, 64 ∣ m → config.tmax ≤ m → (execute_adjust config).tmax ≤ m) ∧
    (64 ∣ config.tmax → (execute_adjust config).tmax = config.tmax) ∧
    (config.tmax = 100 → (execute_adjust config).tmax = 128) ∧
    (config.determine_best_tmax = false →
      ∃ r, execute E fuel config data memory = some r ∧
        r.config = execute_adjust config ∧
        r.engine_tmax = [(execute_adjust config).tmax] ∧
        r.data.fp_correction = E.compute_fp_correction config.false_positive_rate
          config.num_hash_functions (execute_adjust config).tmax ∧
        r.data.stats =
          (E.binning (execute_adjust config) data.kmer_counts r.data.fp_correction
            data.previous
            (E.hibf_statistics (execute_adjust config) r.data.fp_correction
              data.kmer_counts)).stats ∧
        r.data.previous =
          (E.binning (execute_adjust config) data.kmer_counts r.data.fp_correction
            data.previous
            (E.hibf_statistics (execute_adjust config) r.data.fp_correction
              data.kmer_counts)).previous ∧
        r.memory =
          (hierarchical_binning_execute E
            { data with
              fp_correction := r.data.fp_correction
              stats := E.hibf_statistics (execute_adjust config) r.data.fp_correction
                data.kmer_counts }
            (execute_adjust config) memory).1) ∧
    (config.determine_best_tmax = true → (execute_adjust config).tmax < 2 ^ 63 → 58 ≤ fuel →
      ∃ r s candidates, execute E fuel config data memory = some r ∧
        determine_best_number_of_technical_bins E fuel
          { data with
            fp_correction := E.compute_fp_correction config.false_positive_rate
              config.num_hash_functions (execute_adjust config).tmax }
          (execute_adjust config) memory = some s ∧
        r.engine_tmax = s.evaluated ∧ r.data = s.data ∧ r.config = s.config ∧
        r.memory = s.memory ∧ r.stats_file = s.file_out ∧
        potential_t_max fuel (execute_adjust config).tmax data.kmer_counts.length
          = some candidates ∧
        s.evaluated ≠ [] ∧
        s.evaluated <+: candidates ∧
        r.data.fp_correction = E.compute_fp_correction config.false_positive_rate
          config.num_hash_functions (execute_adjust config).tmax) := by
  have ht : (execute_adjust config).tmax
      = if config.tmax % 64 ≠ 0 then next_multiple_of_64 config.tmax else config.tmax := by
    rw [execute_adjust_tmax, Nat.mod_eq_of_lt hfit]
  obtain ⟨f1, f2, f3, f4⟩ := execute_adjust_fields config
  refine ⟨?_, ?_, ?_, ?_, ?_, ?_, ?_⟩
  · rw [ht]
    split
    · exact next_multiple_of_64_dvd _
    · rename_i h
      exact Nat.dvd_of_mod_eq_zero (by simpa using h)
  · rw [ht]
    split
    · exact le_next_multiple_of_64 _
    · exact le_refl _
  · intro m hm hle
    rw [ht]
    split
    · exact next_multiple_of_64_le _ _ hm hle
    · exact hle
  · intro hd
    rw [ht]
    split
    · exact next_multiple_of_64_of_dvd _ hd
    · rfl
  · intro h100
    rw [ht, h100]
    decide
  · intro hd
    have hd' : (execute_adjust config).determine_best_tmax = false := by rw [f3, hd]
    simp only [execute, hd', Bool.false_eq_true, if_false]
    refine ⟨_, rfl, rfl, rfl, ?_, rfl, rfl, rfl⟩
    simp only [hierarchical_binning_execute, f1, f2]
  · intro hd htmax hfuel
    have hd' : (execute_adjust config).determine_best_tmax = true := by rw [f3, hd]
    obtain ⟨candidates, s, h1, h2, h3, -, h5, -, -, -, -, -, -, h12, -⟩ :=
      determine_best_walk E fuel
        { data with
          fp_correction :=
            E.compute_fp_correction (execute_adjust config).false_positive_rate
              (execute_adjust config).num_hash_functions (execute_adjust config).tmax }
        (execute_adjust config) memory htmax hfuel
    obtain ⟨r, e1, e2, e3, e4, e5, e6⟩ := execute_with_search E fuel config data memory s hd' h2
    rw [f1, f2] at h2 h12
    have hne : s.evaluated ≠ [] := by
      cases candidates with
      | nil => exact absurd rfl h3
      | cons c cs =>
        obtain ⟨more, hm⟩ := select_walk_head
          (candidate_cost E (execute_adjust config)
            { data with
              fp_correction :=
                E.compute_fp_correction (execute_adjust config).false_positive_rate
                  (execute_adjust config).num_hash_functions (execute_adjust config).tmax })
          (execute_adjust config).force_all_binnings c cs none
        rw [h5, hm]
        exact List.cons_ne_nil _ _
    refine ⟨r, s, candidates, e1, h2, e2, e3, e4, e5, e6, h1, hne, ?_, by rw [e3]; exact h12⟩
    rw [h5]; exact select_walk_initial _ _ _ _

/-- Instance of C5, amended: the requested count 100 with the search. -/
theorem tmax_rounded_up_to_multiple_of_64_witness :
    next_multiple_of_64 ({ sample_config with tmax := 100 } : configuration).tmax < 2 ^ 64 ∧
    (execute_adjust { sample_config with tmax := 100 }).tmax = 128 ∧
    (∃ r s candidates,
      execute sample_engine 64 { sample_config with tmax := 100 } sample_data sample_memory
        = some r ∧
      determine_best_number_of_technical_bins sample_engine 64
        { sample_data with
          fp_correction := sample_engine.compute_fp_correction
            ({ sample_config with tmax := 100 } : configuration).false_positive_rate
            ({ sample_config with tmax := 100 } : configuration).num_hash_functions
            (execute_adjust { sample_config with tmax := 100 }).tmax }
        (execute_adjust { sample_config with tmax := 100 }) sample_memory = some s ∧
      r.engine_tmax = s.evaluated ∧
      potential_t_max 64 (execute_adjust { sample_config with tmax := 100 }).tmax
        sample_data.kmer_counts.length = some candidates ∧
      s.evaluated ≠ [] ∧
      s.evaluated <+: candidates) := by
  have hfit : next_multiple_of_64 ({ sample_config with tmax := 100 } : configuration).tmax
      < 2 ^ 64 := by decide
  obtain ⟨-, -, -, -, h5, -, h7⟩ :=
    tmax_rounded_up_to_multiple_of_64 sample_engine 64 { sample_config with tmax := 100 }
      sample_data sample_memory hfit
  obtain ⟨r, s, candidates, k1, k2, k3, -, -, -, -, k8, k9, k10, -⟩ :=
    h7 rfl (by rw [h5 rfl]; decide) (by decide)
  exact ⟨hfit, h5 rfl, r, s, candidates, k1, k2, k3, k8, k9, k10⟩

/-- C6, as stated, fails: with a cost model that reports `+infinity` no candidate is selected,
although all are evaluated with `force_all_binnings`; the output buffer keeps the text it had on
entry, which is not the layout text of a binning run, and `config.tmax` is 0. -/
theorem buffers_keep_stale_text_at_infinite_cost :
    ∃ s,
      determine_best_number_of_technical_bins sample_engine_unbounded 64 sample_data
        sample_config_all sample_memory = some s ∧
      s.evaluated = [64, 128, 256] ∧
      s.best_t_max ∉ s.evaluated ∧
      s.config.tmax = 0 ∧
      read_buffer s.memory s.data.output_buffer = "old layout" ∧
      read_buffer s.memory s.data.output_buffer
        ≠ (candidate_run sample_engine_unbounded sample_config_all sample_data
            s.best_t_max).output := by
  obtain ⟨candidates, s, h1, h2, -, -, h5, h6, -, -, h9, -, -, -, -, h14⟩ :=
    determine_best_walk sample_engine_unbounded 64 sample_data sample_config_all sample_memory
      (by decide) (by decide)
  have h1' : potential_t_max 64 sample_config.tmax sample_data.kmer_counts.length
      = some candidates := h1
  rw [sample_candidates] at h1'
  cases h1'
  have hforce : sample_config_all.force_all_binnings = true := rfl
  rw [hforce] at h5 h14
  obtain ⟨k1, -, k3⟩ := h14 (select_walk_never _ _ _ (fun t _ => rfl))
  have hev : s.evaluated = [64, 128, 256] := by rw [h5, select_walk_force]
  have hread : read_buffer s.memory s.data.output_buffer = "old layout" := by
    rw [h6, k3 _ (by decide)]
    rfl
  refine ⟨s, h2, hev, ?_, by rw [h9, k1], hread, ?_⟩
  · rw [hev, k1]; decide
  · rw [hread, k1]
    decide

/-- C6, amended: on return `data.output_buffer` and `data.header_buffer` point to the buffers
they pointed to on entry, the temporary buffers are gone and `config.tmax` is `best_t_max`; and
when at least one evaluated candidate has a cost below `+infinity`, `best_t_max` is an evaluated
candidate and the contents of the two buffers and the returned `max_hibf_id` are those of the one
binning run of `best_t_max`, whatever else was evaluated before or after it. -/
theorem result_comes_from_selected_run (E : layout_engine Prev Stats) (fuel : Nat)
    (data : data_store Prev Stats) (config : configuration) (memory : List String)
    (htmax : config.tmax < 2 ^ 63) (hfuel : 58 ≤ fuel)
    (hout : data.output_buffer < memory.length) (hhdr : data.header_buffer < memory.length)
    (hne : data.output_buffer ≠ data.header_buffer) :
    ∃ s,
      determine_best_number_of_technical_bins E fuel data config memory = some s ∧
      s.data.output_buffer = data.output_buffer ∧
      s.data.header_buffer = data.header_buffer ∧
      s.memory.length = memory.length ∧
      s.config.tmax = s.best_t_max ∧
      s.evaluated ≠ [] ∧
      ((∃ t ∈ s.evaluated, double_lt (candidate_cost E config data t) double.infinity = true) →
        s.best_t_max ∈ s.evaluated ∧
        read_buffer s.memory s.data.output_buffer
          = (candidate_run E config data s.best_t_max).output ∧
        read_buffer s.memory s.data.header_buffer
          = (candidate_run E config data s.best_t_max).header ∧
        s.max_hibf_id = (candidate_run E config data s.best_t_max).max_hibf_id) := by
  obtain ⟨candidates, s, -, h2, h3, -, h5, h6, h7, h8, h9, -, -, -, h13, -⟩ :=
    determine_best_walk E fuel data config memory htmax hfuel
  have hnonempty : s.evaluated ≠ [] := by
    cases candidates with
    | nil => exact absurd rfl h3
    | cons c cs =>
      obtain ⟨more, hm⟩ := select_walk_head (candidate_cost E config data)
        config.force_all_binnings c cs none
      rw [h5, hm]
      exact List.cons_ne_nil _ _
  refine ⟨s, h2, h6, h7, h8, h9, hnonempty, ?_⟩
  rintro ⟨t, ht, hc⟩
  rw [h5] at ht
  obtain ⟨w, hw⟩ := select_walk_selects _ _ candidates t ht hc
  obtain ⟨k1, k2, k3⟩ := h13 w hw
  obtain ⟨m1, m2⟩ := k3 hout hhdr hne
  refine ⟨?_, ?_, ?_, ?_⟩
  · rw [k1, h5]
    rcases select_walk_winner_visited _ _ candidates none w hw with h' | h'
    · cases h'
    · exact h'
  · rw [h6, k1]; exact m1
  · rw [h7, k1]; exact m2
  · rw [k1]; exact k2

/-- Instance of C6, amended, on the sample inputs, whose costs are finite. -/
theorem result_comes_from_selected_run_witness :
    sample_config_all.tmax < 2 ^ 63 ∧ 58 ≤ 64 ∧
    sample_data.output_buffer < sample_memory.length ∧
    sample_data.header_buffer < sample_memory.length ∧
    sample_data.output_buffer ≠ sample_data.header_buffer ∧
    ∃ s,
      determine_best_number_of_technical_bins sample_engine 64 sample_data sample_config_all
        sample_memory = some s ∧
      (∃ t ∈ s.evaluated,
        double_lt (candidate_cost sample_engine sample_config_all sample_data t)
          double.infinity = true) ∧
      s.best_t_max ∈ s.evaluated ∧
      read_buffer s.memory s.data.output_buffer
        = (candidate_run sample_engine sample_config_all sample_data s.best_t_max).output ∧
      read_buffer s.memory s.data.header_buffer
        = (candidate_run sample_engine sample_config_all sample_data s.best_t_max).header ∧
      s.max_hibf_id
        = (candidate_run sample_engine sample_config_all sample_data s.best_t_max).max_hibf_id ∧
      s.config.tmax = s.best_t_max := by
  obtain ⟨s, h1, -, -, -, h5, h6, h7⟩ :=
    result_comes_from_selected_run sample_engine 64 sample_data sample_config_all sample_memory
      (by decide) (by decide) (by decide) (by decide) (by decide)
  obtain ⟨t, ht⟩ := List.exists_mem_of_ne_nil _ h6
  have hsel : ∃ t ∈ s.evaluated,
      double_lt (candidate_cost sample_engine sample_config_all sample_data t)
        double.infinity = true :=
    ⟨t, ht, (double_finite_lt_infinity _
      (sample_engine_cost_finite sample_config_all sample_data t)).1⟩
  obtain ⟨k1, k2, k3, k4⟩ := h7 hsel
  exact ⟨by decide, by decide, by decide, by decide, by decide, s, h1, hsel, k1, k2, k3, k4, h5⟩

/-- C7: `chopper_build` returns the non-zero code -1, without calling `create_ibfs` and without
opening or writing an output file, when parsing raises an argument-parser error, when both `-p`
and `-s` are set, and when neither is set. It returns zero only when parsing succeeded, exactly
one of the two options is set, building the filters succeeded, the output directory exists or
was created, and both output files could be opened and archived. -/
theorem chopper_build_exit_code (env : build_environment) :
    (((∃ what, env.parse = parse_outcome.argument_parser_error what) ∨
      (env.parse = parse_outcome.ok ∧ env.is_option_set 'p' = Except.ok true ∧
        env.is_option_set 's' = Except.ok true) ∨
      (env.parse = parse_outcome.ok ∧ env.is_option_set 'p' = Except.ok false ∧
        env.is_option_set 's' = Except.ok false)) →
      (chopper_build env).outcome = build_outcome.returned (-1) ∧
      (chopper_build env).outcome ≠ build_outcome.returned 0 ∧
      build_event.create_ibfs ∉ (chopper_build env).events ∧
      ∀ e ∈ (chopper_build env).events, e.touches_file = false) ∧
    ((chopper_build env).outcome = build_outcome.returned 0 →
      env.parse = parse_outcome.ok ∧
      ((env.is_option_set 'p' = Except.ok true ∧ env.is_option_set 's' = Except.ok false) ∨
        (env.is_option_set 'p' = Except.ok false ∧ env.is_option_set 's' = Except.ok true)) ∧
      env.create_ibfs_from_chopper_pack env.parsed_config = Except.ok () ∧
      (env.directory_exists (env.parent_path env.parsed_config.output_prefix) = true ∨
        env.create_directories (env.parent_path env.parsed_config.output_prefix) = true) ∧
      env.ofstream_usable (env.parsed_config.output_prefix ++ "hibf.out") = true ∧
      env.archive (env.parsed_config.output_prefix ++ "hibf.out") = Except.ok () ∧
      env.ofstream_usable (env.parsed_config.output_prefix ++ "position_mapping.out") = true ∧
      env.archive (env.parsed_config.output_prefix ++ "position_mapping.out") = Except.ok ()) := by
  constructor
  · rintro (⟨what, hp⟩ | ⟨hp, h1, h2⟩ | ⟨hp, h1, h2⟩)
    · simp [chopper_build, hp, build_event.touches_file]
    · simp [chopper_build, hp, h1, h2, build_event.touches_file]
    · simp [chopper_build, hp, h1, h2, build_event.touches_file]
  · intro h
    unfold chopper_build at h
    cases hp : env.parse with
    | other_exception what => simp [hp] at h
    | argument_parser_error what => simp [hp] at h
    | ok =>
      cases h1 : env.is_option_set 'p' with
      | error what => simp [hp, h1] at h
      | ok p_set =>
        cases h2 : env.is_option_set 's' with
        | error what => simp [hp, h1, h2] at h
        | ok s_set =>
          simp only [hp, h1, h2] at h
          cases p_set <;> cases s_set <;>
            simp only [Bool.and_self, Bool.and_true, Bool.and_false, Bool.not_true,
              Bool.not_false, Bool.false_eq_true, if_true, if_false] at h
          · cases h
          · exact ⟨rfl, Or.inr ⟨rfl, rfl⟩, chopper_build_tail_returned _ _ _ _ h⟩
          · exact ⟨rfl, Or.inl ⟨rfl, rfl⟩, chopper_build_tail_returned _ _ _ _ h⟩
          · cases h

/-- Instance of C7: no option given, and only `-p` given with everything succeeding. -/
theorem chopper_build_exit_code_witness :
    ((chopper_build sample_build_environment_neither).outcome = build_outcome.returned (-1) ∧
      (chopper_build sample_build_environment_neither).outcome ≠ build_outcome.returned 0 ∧
      build_event.create_ibfs ∉ (chopper_build sample_build_environment_neither).events ∧
      ∀ e ∈ (chopper_build sample_build_environment_neither).events, e.touches_file = false) ∧
    (chopper_build sample_build_environment).outcome = build_outcome.returned 0 ∧
    sample_build_environment.parse = parse_outcome.ok ∧
    ((sample_build_environment.is_option_set 'p' = Except.ok true ∧
        sample_build_environment.is_option_set 's' = Except.ok false) ∨
      (sample_build_environment.is_option_set 'p' = Except.ok false ∧
        sample_build_environment.is_option_set 's' = Except.ok true)) :=
  ⟨(chopper_build_exit_code sample_build_environment_neither).1
      (Or.inr (Or.inr ⟨rfl, rfl, rfl⟩)),
    rfl,
    ((chopper_build_exit_code sample_build_environment).2 rfl).1,
    ((chopper_build_exit_code sample_build_environment).2 rfl).2.1⟩

/-- C8, as stated, fails: two runs on the same user bins, FP table, ceiling and flag, with a
cost model that reports `+infinity`, select nothing and leave in their output buffers the
different texts these had on entry. -/
theorem runs_keep_different_stale_text_at_infinite_cost :
    sample_data.kmer_counts = sample_data_moved.kmer_counts ∧
    sample_data.fp_correction = sample_data_moved.fp_correction ∧
    ∃ s1 s2,
      determine_best_number_of_technical_bins sample_engine_unbounded 64 sample_data
        sample_config sample_memory = some s1 ∧
      determine_best_number_of_technical_bins sample_engine_unbounded 64 sample_data_moved
        sample_config sample_memory_moved = some s2 ∧
      read_buffer s1.memory s1.data.output_buffer = "old layout" ∧
      read_buffer s2.memory s2.data.output_buffer = "stale layout" ∧
      read_buffer s1.memory s1.data.output_buffer
        ≠ read_buffer s2.memory s2.data.output_buffer := by
  obtain ⟨c1, s1, a1, a2, -, -, -, a6, -, -, -, -, -, -, -, a14⟩ :=
    determine_best_walk sample_engine_unbounded 64 sample_data sample_config sample_memory
      (by decide) (by decide)
  obtain ⟨c2, s2, b1, b2, -, -, -, b6, -, -, -, -, -, -, -, b14⟩ :=
    determine_best_walk sample_engine_unbounded 64 sample_data_moved sample_config
      sample_memory_moved (by decide) (by decide)
  obtain ⟨-, -, k3⟩ := a14 (select_walk_never _ _ _ (fun t _ => rfl))
  obtain ⟨-, -, l3⟩ := b14 (select_walk_never _ _ _ (fun t _ => rfl))
  have r1 : read_buffer s1.memory s1.data.output_buffer = "old layout" := by
    rw [a6, k3 _ (by decide)]
    rfl
  have r2 : read_buffer s2.memory s2.data.output_buffer = "stale layout" := by
    rw [b6, l3 _ (by decide)]
    rfl
  refine ⟨rfl, rfl, s1, s2, a2, b2, r1, r2, ?_⟩
  rw [r1, r2]
  decide

/-- C8, amended: two runs of the search whose inputs agree on the user-bin cardinalities, the FP
correction table, the ceiling `tmax` and the `force_all_binnings` flag evaluate the same
candidates and select the same `best_t_max`, whatever the initial buffer contents, buffer
addresses, `data.previous` and `data.stats` are; and when at least one evaluated candidate has a
cost below `+infinity`, they leave the same contents in the output buffer and in the header
buffer. The binning engine and the statistics are taken to read the configuration through `tmax`
only. -/
theorem search_is_deterministic (E : layout_engine Prev Stats) (fuel : Nat)
    (data1 data2 : data_store Prev Stats) (config1 config2 : configuration)
    (memory1 memory2 : List String)
    (hbin : ∀ c c' kmer_counts fp previous stats, c.tmax = c'.tmax →
      E.binning c kmer_counts fp previous stats = E.binning c' kmer_counts fp previous stats)
    (hstat : ∀ c c' fp kmer_counts, c.tmax = c'.tmax →
      E.hibf_statistics c fp kmer_counts = E.hibf_statistics c' fp kmer_counts)
    (hkmer : data1.kmer_counts = data2.kmer_counts)
    (hfp : data1.fp_correction = data2.fp_correction)
    (htm : config1.tmax = config2.tmax)
    (hforce : config1.force_all_binnings = config2.force_all_binnings)
    (htmax : config1.tmax < 2 ^ 63) (hfuel : 58 ≤ fuel)
    (hout1 : data1.output_buffer < memory1.length) (hhdr1 : data1.header_buffer < memory1.length)
    (hne1 : data1.output_buffer ≠ data1.header_buffer)
    (hout2 : data2.output_buffer < memory2.length) (hhdr2 : data2.header_buffer < memory2.length)
    (hne2 : data2.output_buffer ≠ data2.header_buffer) :
    ∃ s1 s2,
      determine_best_number_of_technical_bins E fuel data1 config1 memory1 = some s1 ∧
      determine_best_number_of_technical_bins E fuel data2 config2 memory2 = some s2 ∧
      s1.best_t_max = s2.best_t_max ∧
      s1.evaluated = s2.evaluated ∧
      s1.evaluated ≠ [] ∧
      s1.max_hibf_id = s2.max_hibf_id ∧
      ((∃ t ∈ s1.evaluated,
          double_lt (candidate_cost E config1 data1 t) double.infinity = true) →
        read_buffer s1.memory s1.data.output_buffer
          = read_buffer s2.memory s2.data.output_buffer ∧
        read_buffer s1.memory s1.data.header_buffer
          = read_buffer s2.memory s2.data.header_buffer) := by
  have hrun : ∀ t, candidate_run E config1 data1 t = candidate_run E config2 data2 t := by
    intro t
    unfold candidate_run
    rw [hkmer, hfp, hstat { config1 with tmax := t } { config2 with tmax := t } _ _ rfl]
    exact hbin _ _ _ _ _ _ rfl
  have hcost : candidate_cost E config1 data1 = candidate_cost E config2 data2 := by
    funext t
    unfold candidate_cost
    rw [hrun t]
  obtain ⟨c1, s1, a1, a2, a3, -, a5, a6, a7, -, -, -, -, -, a13, a14⟩ :=
    determine_best_walk E fuel data1 config1 memory1 htmax hfuel
  obtain ⟨c2, s2, b1, b2, -, -, b5, b6, b7, -, -, -, -, -, b13, b14⟩ :=
    determine_best_walk E fuel data2 config2 memory2 (by rw [← htm]; exact htmax) hfuel
  rw [htm, hkmer, b1] at a1
  cases a1
  rw [hcost, hforce] at a5 a13 a14
  have hnonempty : s1.evaluated ≠ [] := by
    cases c1 with
    | nil => exact absurd rfl a3
    | cons c cs =>
      obtain ⟨more, hm⟩ := select_walk_head (candidate_cost E config2 data2)
        config2.force_all_binnings c cs none
      rw [a5, hm]
      exact List.cons_ne_nil _ _
  have hbest : s1.best_t_max = s2.best_t_max ∧ s1.max_hibf_id = s2.max_hibf_id := by
    cases hw : (select_walk (candidate_cost E config2 data2) config2.force_all_binnings none
        c1).1 with
    | none =>
      obtain ⟨x1, x2, -⟩ := a14 hw
      obtain ⟨y1, y2, -⟩ := b14 hw
      exact ⟨by rw [x1, y1], by rw [x2, y2]⟩
    | some w =>
      obtain ⟨x1, x2, -⟩ := a13 w hw
      obtain ⟨y1, y2, -⟩ := b13 w hw
      exact ⟨by rw [x1, y1], by rw [x2, y2, hrun]⟩
  refine ⟨s1, s2, a2, b2, hbest.1, by rw [a5, b5], hnonempty, hbest.2, ?_⟩
  rintro ⟨t, ht, hc⟩
  rw [a5] at ht
  rw [hcost] at hc
  obtain ⟨w, hw⟩ := select_walk_selects _ _ c1 t ht hc
  obtain ⟨-, -, x3⟩ := a13 w hw
  obtain ⟨-, -, y3⟩ := b13 w hw
  obtain ⟨m1, m2⟩ := x3 hout1 hhdr1 hne1
  obtain ⟨n1, n2⟩ := y3 hout2 hhdr2 hne2
  exact ⟨by rw [a6, b6, m1, n1, hrun], by rw [a7, b7, m2, n2, hrun]⟩

/-- Instance of C8, amended: the sample inputs, whose costs are finite, against the same user
bins with other buffer addresses, other buffer contents, stale statistics and another
verbosity. -/
theorem search_is_deterministic_witness :
    sample_data.kmer_counts = sample_data_moved.kmer_counts ∧
    sample_config.tmax < 2 ^ 63 ∧
    sample_data_moved.output_buffer ≠ sample_data_moved.header_buffer ∧
    ∃ s1 s2,
      determine_best_number_of_technical_bins sample_engine 64 sample_data sample_config
        sample_memory = some s1 ∧
      determine_best_number_of_technical_bins sample_engine 64 sample_data_moved
        { sample_config with output_verbose_statistics := true } sample_memory_moved = some s2 ∧
      s1.best_t_max = s2.best_t_max ∧
      s1.evaluated = s2.evaluated ∧
      s1.max_hibf_id = s2.max_hibf_id ∧
      read_buffer s1.memory s1.data.output_buffer = read_buffer s2.memory s2.data.output_buffer ∧
      read_buffer s1.memory s1.data.header_buffer
        = read_buffer s2.memory s2.data.header_buffer := by
  obtain ⟨s1, s2, h1, h2, h3, h4, h5, h6, h7⟩ :=
    search_is_deterministic sample_engine 64 sample_data sample_data_moved sample_config
      { sample_config with output_verbose_statistics := true } sample_memory sample_memory_moved
      sample_engine_reads_tmax_only.1 sample_engine_reads_tmax_only.2
      rfl rfl rfl rfl (by decide) (by decide) (by decide) (by decide) (by decide) (by decide)
      (by decide) (by decide)
  obtain ⟨t, ht⟩ := List.exists_mem_of_ne_nil _ h5
  obtain ⟨k1, k2⟩ := h7 ⟨t, ht, (double_finite_lt_infinity _
    (sample_engine_cost_finite sample_config sample_data t)).1⟩
  exact ⟨rfl, by decide, by decide, s1, s2, h1, h2, h3, h4, h6, k1, k2⟩

/-- C9: the `.stats` stream consists of the parameter lines and the table header, then for each
evaluated candidate, in the order of evaluation, the summary row of its own binning run, and then
one line naming the selected `best_t_max`. The evaluated candidates are a non-empty initial part
of the ascending candidate set: all of it with `force_all_binnings`, winners and losers alike;
with early exit the run of improving candidates and the candidate after it, which triggers the
stop. -/
theorem stats_file_has_one_row_per_evaluated_candidate (E : layout_engine Prev Stats)
    (fuel : Nat) (data : data_store Prev Stats) (config : configuration) (memory : List String)
    (htmax : config.tmax < 2 ^ 63) (hfuel : 58 ≤ fuel) :
    ∃ candidates s,
      potential_t_max fuel config.tmax data.kmer_counts.length = some candidates ∧
      determine_best_number_of_technical_bins E fuel data config memory = some s ∧
      candidates.Pairwise (· < ·) ∧
      s.file_out =
        [stats_line.parameters data.filenames.length config.num_hash_functions
            config.false_positive_rate,
          stats_line.header (E.print_header_to config.output_verbose_statistics)]
        ++ summary_rows E config data 0 s.evaluated
        ++ [stats_line.best_t_max s.best_t_max] ∧
      s.file_out.filterMap stats_line.candidate = s.evaluated ∧
      s.evaluated ≠ [] ∧
      s.evaluated <+: candidates ∧
      (config.force_all_binnings = true → s.evaluated = candidates) ∧
      (config.force_all_binnings = false →
        ∃ run rest,
          candidates = run ++ rest ∧
          strictly_descending (candidate_cost E config data) double.infinity run ∧
          s.best_t_max = run.getLast?.getD 0 ∧
          ((rest = [] ∧ s.evaluated = candidates) ∨
            ∃ x tail, rest = x :: tail ∧
              double_lt (candidate_cost E config data x)
                (best_cost (candidate_cost E config data) run.getLast?) = false ∧
              s.evaluated = run ++ [x])) := by
  obtain ⟨candidates, s, h1, h2, h3, h4, h5, -, -, -, -, h10, -, -, h13, h14⟩ :=
    determine_best_walk E fuel data config memory htmax hfuel
  have hne : s.evaluated ≠ [] := by
    cases candidates with
    | nil => exact absurd rfl h3
    | cons c cs =>
      obtain ⟨more, hm⟩ := select_walk_head (candidate_cost E config data)
        config.force_all_binnings c cs none
      rw [h5, hm]
      exact List.cons_ne_nil _ _
  refine ⟨candidates, s, h1, h2, h4, h10, ?_, hne, ?_, ?_, ?_⟩
  · rw [h10, List.filterMap_append, List.filterMap_append, summary_rows_candidates]
    simp [stats_line.candidate]
  · rw [h5]; exact select_walk_initial _ _ _ _
  · intro hf
    rw [h5, hf, select_walk_force]
  · intro hf
    rw [hf] at h5 h13 h14
    obtain ⟨run, rest, e1, e2, e3, e4⟩ :=
      select_walk_early_exit (candidate_cost E config data) candidates none
    have hnil : (none : Option Nat).toList ++ run = run := rfl
    rw [hnil] at e3 e4
    refine ⟨run, rest, e1, e2, ?_, ?_⟩
    · cases hl : run.getLast? with
      | none =>
        rw [hl] at e3
        exact (h14 e3).1
      | some w =>
        rw [hl] at e3
        exact (h13 w e3).1
    · rcases e4 with ⟨k1, k2⟩ | ⟨x, tail, k1, k2, k3⟩
      · exact Or.inl ⟨k1, by rw [h5, k2]⟩
      · exact Or.inr ⟨x, tail, k1, k2, by rw [h5, k3]⟩

/-- Instance of C9 on the sample inputs. -/
theorem stats_file_has_one_row_per_evaluated_candidate_witness :
    sample_config.tmax < 2 ^ 63 ∧ 58 ≤ 64 ∧
    ∃ candidates s,
      potential_t_max 64 sample_config.tmax sample_data.kmer_counts.length = some candidates ∧
      determine_best_number_of_technical_bins sample_engine 64 sample_data sample_config
        sample_memory = some s ∧
      s.file_out =
        [stats_line.parameters sample_data.filenames.length sample_config.num_hash_functions
            sample_config.false_positive_rate,
          stats_line.header
            (sample_engine.print_header_to sample_config.output_verbose_statistics)]
        ++ summary_rows sample_engine sample_config sample_data 0 s.evaluated
        ++ [stats_line.best_t_max s.best_t_max] ∧
      s.evaluated ≠ [] ∧
      s.evaluated <+: candidates := by
  obtain ⟨candidates, s, h1, h2, -, h4, -, h6, h7, -⟩ :=
    stats_file_has_one_row_per_evaluated_candidate sample_engine 64 sample_data sample_config
      sample_memory (by decide) (by decide)
  exact ⟨by decide, by decide, candidates, s, h1, h2, h4, h6, h7⟩

/-- C10: with 4097 user bins and the ceiling 64, `execute` builds the FP correction table for
`tmax = 64` and the search then calls the binning engine with the candidate 128, above the
ceiling; with no user bins it calls the engine with the candidate 0. With `force_all_binnings`
this holds for every engine, with early exit for every engine whose costs are below
`+infinity`. -/
theorem sqrt_candidate_leaves_fp_table (E : layout_engine Prev Stats) (previous : Prev)
    (stats : Stats) (memory : List String) :
    ((∃ r,
        execute E 64 { sample_config with tmax := 64, force_all_binnings := true }
          { output_buffer := 0, header_buffer := 1, previous := previous, stats := stats,
            kmer_counts := List.replicate 4097 1, fp_correction := [], filenames := [] }
          memory = some r ∧
        r.data.fp_correction = E.compute_fp_correction (1 / 20) 2 64 ∧
        r.engine_tmax = [64, 128]) ∧
      (∃ r,
        execute E 64 { sample_config with tmax := 64, force_all_binnings := true }
          { output_buffer := 0, header_buffer := 1, previous := previous, stats := stats,
            kmer_counts := [], fp_correction := [], filenames := [] }
          memory = some r ∧
        r.data.fp_correction = E.compute_fp_correction (1 / 20) 2 64 ∧
        r.engine_tmax = [0, 64])) ∧
    ((∀ st, double_lt (E.expected_HIBF_query_cost st) double.infinity = true) →
      (∃ r,
        execute E 64 { sample_config with tmax := 64, force_all_binnings := false }
          { output_buffer := 0, header_buffer := 1, previous := previous, stats := stats,
            kmer_counts := List.replicate 4097 1, fp_correction := [], filenames := [] }
          memory = some r ∧
        r.data.fp_correction = E.compute_fp_correction (1 / 20) 2 64 ∧
        r.engine_tmax = [64, 128]) ∧
      (∃ r,
        execute E 64 { sample_config with tmax := 64, force_all_binnings := false }
          { output_buffer := 0, header_buffer := 1, previous := previous, stats := stats,
            kmer_counts := [], fp_correction := [], filenames := [] }
          memory = some r ∧
        r.data.fp_correction = E.compute_fp_correction (1 / 20) 2 64 ∧
        r.engine_tmax = [0, 64])) := by
  have hlen : (List.replicate 4097 1).length = 4097 := List.length_replicate _ _
  have h4097 : potential_t_max 64 64 (List.replicate 4097 1).length = some [64, 128] := by
    rw [hlen]; exact potential_t_max_4097
  have hzero : potential_t_max 64 64 ([] : List Nat).length = some [0, 64] :=
    potential_t_max_zero
  refine ⟨⟨?_, ?_⟩, fun hfin => ⟨?_, ?_⟩⟩
  · exact execute_two_candidates E previous stats memory true _ 64 128 h4097 (Or.inl rfl)
  · exact execute_two_candidates E previous stats memory true _ 0 64 hzero (Or.inl rfl)
  · exact execute_two_candidates E previous stats memory false _ 64 128 h4097 (Or.inr hfin)
  · exact execute_two_candidates E previous stats memory false _ 0 64 hzero (Or.inr hfin)

end chopper
